import Mathlib

/-!
Verification of the content-acquisition and AI-response normalization core of
the buildflow repository (`utils/ai_wrapper.py`, `modules/analyse_html.py`).

The Python code is shallowly embedded: strings are Lean `String`s (processed
as `List Char`), Python `dict`s of JSON data are association lists, machine
integers are `Int`/`Nat`, fallible operations return `Option`/`Except`, and
the external world (the HTTP remote and the model endpoint) is an explicit
oracle: a list of outcomes consumed one per request.

Modelling conventions, noted where they matter:
* JSON numbers are modelled as integers (`Int`); float literals are not
  modelled.
* Python `str.strip` is modelled over the six ASCII whitespace characters.
* `json.dumps` is modelled with `ensure_ascii=False` (quote, backslash and
  control characters are escaped; other characters pass through).
-/

namespace Buildflow

/-! ## Python string primitives (on `List Char`) -/

/-- The six ASCII whitespace characters recognised by Python `str.strip`. -/
def isPyWs (c : Char) : Bool :=
  c = ' ' || c = '\t' || c = '\n' || c = '\r' || c = '\x0b' || c = '\x0c'

/-- `str.lstrip()` on character lists. -/
def lstripL (l : List Char) : List Char := l.dropWhile isPyWs

/-- `str.rstrip()` on character lists. -/
def rstripL (l : List Char) : List Char := (l.reverse.dropWhile isPyWs).reverse

/-- `str.strip()` on character lists. -/
def stripL (l : List Char) : List Char := rstripL (lstripL l)

/-- `str.strip()`. -/
def pyStrip (s : String) : String := ⟨stripL s.data⟩

/-- `str.rstrip()`. -/
def pyRstrip (s : String) : String := ⟨rstripL s.data⟩

/-- `s[:n]` for a non-negative index `n`. -/
def pyTake (n : Nat) (s : String) : String := ⟨s.data.take n⟩

/-- `s[:n]` for an arbitrary (possibly negative) Python index `n`. -/
def pySliceTo (n : Int) (l : List Char) : List Char :=
  if n < 0 then l.take ((l.length : Int) + n).toNat else l.take n.toNat

/-- Whether `pat` occurs as a contiguous substring of `s`
(`pat in s` in Python). -/
def hasSubstr (s pat : List Char) : Bool :=
  match s with
  | [] => pat.isEmpty
  | _ :: rest => pat.isPrefixOf s || hasSubstr rest pat

/-- The scan of `str.replace`: replaces every non-overlapping occurrence of
`pat`, scanning left to right.  Fuelled for structural recursion; each step
consumes at least one input character, so `length + 1` fuel never runs
out. -/
def replaceAux (pat rep : List Char) : Nat → List Char → List Char
  | 0, l => l
  | _ + 1, [] => []
  | fuel + 1, c :: rest =>
    if pat.isPrefixOf (c :: rest) then
      rep ++ replaceAux pat rep fuel ((c :: rest).drop pat.length)
    else
      c :: replaceAux pat rep fuel rest

/-- Python `str.replace(pat, rep)` (for a non-empty pattern; the patterns used
by the source are all non-empty). -/
def pyReplace (s pat rep : String) : String :=
  if pat.data.isEmpty then s
  else ⟨replaceAux pat.data rep.data (s.data.length + 1) s.data⟩

/-- Index of the last occurrence of `c` in `l` (`str.rfind`). -/
def rfindIdx (l : List Char) (c : Char) : Option Nat :=
  (l.reverse.findIdx? (· = c)).map (fun i => l.length - 1 - i)

/-! ## JSON values

Python JSON data (`dict` / `list` / `str` / `int` / `bool` / `None`); a
`dict` is an association list of key-value pairs in insertion order. -/

inductive Json where
  | null : Json
  | bool (b : Bool) : Json
  | num (n : Int) : Json
  | str (s : String) : Json
  | arr (xs : List Json) : Json
  | obj (kvs : List (String × Json)) : Json
deriving Repr

/-- `d.get(k)` on a JSON object; `none` on non-objects. -/
def jsonLookup (j : Json) (k : String) : Option Json :=
  match j with
  | .obj kvs => kvs.lookup k
  | _ => none

/-! ## `json.dumps`

Serialization with the default separators `", "` and `": "` and
`ensure_ascii=False`. -/

/-- Lower-case hex digit for `d < 16`. -/
def hexDigitChar (d : Nat) : Char :=
  if d < 10 then Char.ofNat (48 + d) else Char.ofNat (87 + d)

/-- How `json.dumps` escapes a single character inside a string literal:
quote, backslash and the named control characters get two-character escapes,
remaining control characters get a `\u00XX` escape, everything else is
emitted as itself. -/
def escChar (c : Char) : List Char :=
  if c = '"' then ['\\', '"']
  else if c = '\\' then ['\\', '\\']
  else if c = '\n' then ['\\', 'n']
  else if c = '\r' then ['\\', 'r']
  else if c = '\t' then ['\\', 't']
  else if c = '\x08' then ['\\', 'b']
  else if c = '\x0c' then ['\\', 'f']
  else if c.toNat < 0x20 then
    ['\\', 'u', '0', '0', hexDigitChar (c.toNat / 16), hexDigitChar (c.toNat % 16)]
  else [c]

/-- A JSON string literal (opening quote, escaped body, closing quote). -/
def dumpStrL (s : List Char) : List Char :=
  '"' :: (s.map escChar).flatten ++ ['"']

/-- Decimal digits of `n` in most-significant-first order (empty for `0`);
`fuel`-driven so that it evaluates by `rfl`. -/
def natDigitsAux : Nat → Nat → List Char
  | 0, _ => []
  | fuel + 1, n =>
    if n = 0 then [] else natDigitsAux fuel (n / 10) ++ [Char.ofNat (48 + n % 10)]

/-- Python `repr` of a natural number. -/
def natToStrL (n : Nat) : List Char :=
  if n = 0 then ['0'] else natDigitsAux (n + 1) n

/-- Python `repr` of an integer. -/
def intToStrL (n : Int) : List Char :=
  if n < 0 then '-' :: natToStrL (-n).toNat else natToStrL n.toNat

mutual

/-- `json.dumps` of a value, as a character list. -/
def dumpVal : Json → List Char
  | .null => "null".data
  | .bool true => "true".data
  | .bool false => "false".data
  | .num n => intToStrL n
  | .str s => dumpStrL s.data
  | .arr xs => '[' :: dumpItems xs ++ [']']
  | .obj kvs => '{' :: dumpMembers kvs ++ ['}']

/-- Array items joined by `", "`. -/
def dumpItems : List Json → List Char
  | [] => []
  | [x] => dumpVal x
  | x :: y :: xs => dumpVal x ++ ',' :: ' ' :: dumpItems (y :: xs)

/-- Object members `"k": v` joined by `", "`. -/
def dumpMembers : List (String × Json) → List Char
  | [] => []
  | [(k, v)] => dumpStrL k.data ++ ':' :: ' ' :: dumpVal v
  | (k, v) :: m :: kvs =>
    dumpStrL k.data ++ ':' :: ' ' :: dumpVal v ++ ',' :: ' ' :: dumpMembers (m :: kvs)

end

/-- `json.dumps` (default separators, `ensure_ascii=False`). -/
def json_dumps (v : Json) : String := ⟨dumpVal v⟩

/-! ## `json.loads`

A recursive-descent model of Python's strict JSON decoder, restricted to
integer numerals (no float literals, no `NaN`/`Infinity`, no surrogate-pair
recombination). Recursion is fuelled; the top-level entry supplies enough
fuel for any input (at least one input character is consumed per fuel
unit). -/

/-- JSON inter-token whitespace (`' \t\n\r'`). -/
def isJsonWs (c : Char) : Bool := c = ' ' || c = '\t' || c = '\n' || c = '\r'

/-- Skip inter-token whitespace. -/
def skipWs (l : List Char) : List Char := l.dropWhile isJsonWs

/-- Value of a hex digit. -/
def hexVal (c : Char) : Option Nat :=
  if '0' ≤ c ∧ c ≤ '9' then some (c.toNat - 48)
  else if 'a' ≤ c ∧ c ≤ 'f' then some (c.toNat - 87)
  else if 'A' ≤ c ∧ c ≤ 'F' then some (c.toNat - 70)
  else none

/-- Body of a JSON string literal, after the opening quote: returns the
decoded characters and the input after the closing quote.  Unescaped control
characters are rejected (`strict=True`), as are invalid escapes. -/
def parseStringBody : List Char → Option (List Char × List Char)
  | [] => none
  | c :: rest =>
    if c = '"' then some ([], rest)
    else if c = '\\' then
      match rest with
      | [] => none
      | e :: rest2 =>
        if e = 'u' then
          match rest2 with
          | h1 :: h2 :: h3 :: h4 :: rest3 =>
            match hexVal h1, hexVal h2, hexVal h3, hexVal h4 with
            | some a, some b, some c', some d =>
              let code := ((a * 16 + b) * 16 + c') * 16 + d
              if code < 0xd800 ∨ 0xdfff < code then
                (parseStringBody rest3).map (fun p => (Char.ofNat code :: p.1, p.2))
              else none
            | _, _, _, _ => none
          | _ => none
        else
          match
            (if e = '"' then some '"'
             else if e = '\\' then some '\\'
             else if e = '/' then some '/'
             else if e = 'b' then some '\x08'
             else if e = 'f' then some '\x0c'
             else if e = 'n' then some '\n'
             else if e = 'r' then some '\r'
             else if e = 't' then some '\t'
             else none) with
          | some u => (parseStringBody rest2).map (fun p => (u :: p.1, p.2))
          | none => none
    else if c.toNat < 0x20 then none
    else (parseStringBody rest).map (fun p => (c :: p.1, p.2))

/-- Digit-string accumulator. -/
def foldDigits (l : List Char) : Nat :=
  l.foldl (fun acc c => acc * 10 + (c.toNat - 48)) 0

/-- An unsigned JSON integer numeral: `0`, or a nonzero digit followed by
digits (a leading `0` matches only itself, as in Python's number regex). -/
def parseNat : List Char → Option (Nat × List Char)
  | [] => none
  | c :: rest =>
    if c = '0' then some (0, rest)
    else if c.isDigit then
      some (foldDigits ((c :: rest).takeWhile Char.isDigit),
            (c :: rest).dropWhile Char.isDigit)
    else none

/-- A JSON integer numeral with optional minus sign. -/
def parseNumber (l : List Char) : Option (Json × List Char) :=
  match l with
  | '-' :: rest => (parseNat rest).map (fun p => (Json.num (-(p.1 : Int)), p.2))
  | _ => (parseNat l).map (fun p => (Json.num (p.1 : Int), p.2))

/-- The literal `true` after its leading `t`. -/
def parseTrueLit : List Char → Option (Json × List Char)
  | 'r' :: 'u' :: 'e' :: r => some (.bool true, r)
  | _ => none

/-- The literal `false` after its leading `f`. -/
def parseFalseLit : List Char → Option (Json × List Char)
  | 'a' :: 'l' :: 's' :: 'e' :: r => some (.bool false, r)
  | _ => none

/-- The literal `null` after its leading `n`. -/
def parseNullLit : List Char → Option (Json × List Char)
  | 'u' :: 'l' :: 'l' :: r => some (.null, r)
  | _ => none

mutual

/-- A JSON value at the head of the input (whitespace already skipped). -/
def parseValue : Nat → List Char → Option (Json × List Char)
  | 0, _ => none
  | _ + 1, [] => none
  | fuel + 1, c :: rest =>
    if c = '{' then
      if (skipWs rest).head? = some '}' then some (.obj [], (skipWs rest).tail)
      else (parseMembers fuel (skipWs rest)).map (fun p => (Json.obj p.1, p.2))
    else if c = '[' then
      if (skipWs rest).head? = some ']' then some (.arr [], (skipWs rest).tail)
      else (parseItems fuel (skipWs rest)).map (fun p => (Json.arr p.1, p.2))
    else if c = '"' then
      (parseStringBody rest).map (fun p => (Json.str ⟨p.1⟩, p.2))
    else if c = 't' then parseTrueLit rest
    else if c = 'f' then parseFalseLit rest
    else if c = 'n' then parseNullLit rest
    else parseNumber (c :: rest)

/-- One or more `"key": value` members, up to and including the closing
brace. -/
def parseMembers : Nat → List Char → Option (List (String × Json) × List Char)
  | 0, _ => none
  | fuel + 1, l =>
    if l.head? = some '"' then
      match parseStringBody l.tail with
      | none => none
      | some (k, r1) =>
        if (skipWs r1).head? = some ':' then
          match parseValue fuel (skipWs (skipWs r1).tail) with
          | none => none
          | some (v, r3) =>
            if (skipWs r3).head? = some ',' then
              (parseMembers fuel (skipWs (skipWs r3).tail)).map
                (fun p => ((⟨k⟩, v) :: p.1, p.2))
            else if (skipWs r3).head? = some '}' then
              some ([(⟨k⟩, v)], (skipWs r3).tail)
            else none
        else none
    else none

/-- One or more array items, up to and including the closing bracket. -/
def parseItems : Nat → List Char → Option (List Json × List Char)
  | 0, _ => none
  | fuel + 1, l =>
    match parseValue fuel l with
    | none => none
    | some (v, r1) =>
      if (skipWs r1).head? = some ',' then
        (parseItems fuel (skipWs (skipWs r1).tail)).map (fun p => (v :: p.1, p.2))
      else if (skipWs r1).head? = some ']' then some ([v], (skipWs r1).tail)
      else none

end

/-- `json.loads`: parse one JSON document, requiring only whitespace after
it (`Extra data` otherwise). -/
def json_loads (s : String) : Except String Json :=
  match parseValue (s.data.length + 1) (skipWs s.data) with
  | none => .error "Expecting value"
  | some (v, r) => if skipWs r = [] then .ok v else .error "Extra data"

/-! ## `utils/ai_wrapper.py` — model invocation with cache and retries

The OpenAI client is abstracted by an oracle: `remote` is the list of
outcomes of the successive completion requests, where `some text` is a
response with content `text` and `none` is a request that raised.  An
exhausted oracle behaves like a raising request.  `calls` counts the
requests issued. -/

def DEFAULT_MODEL : String := "gpt-4.1"

def CHEAP_MODEL : String := "gpt-4o-mini"

/-- Process-wide mutable state of the wrapper (`_ai_cache`) together with
the oracle for the remote model. -/
structure ModelState where
  cache : List (String × String)
  remote : List (Option String)
  calls : Nat
deriving Repr, DecidableEq

/-- `clear_cache()`. -/
def clear_cache (st : ModelState) : ModelState := { st with cache := [] }

/-- The markdown fence-stripping normalization `smart_ai` applies to a raw
completion (strip, drop a leading fence line, drop a trailing fence-only
line, strip again). -/
def stripFences (content : String) : String :=
  let output := pyStrip content
  if output.startsWith "```" then
    let lines := output.splitOn "\n"
    let lines :=
      match lines with
      | l0 :: rest => if l0.startsWith "```" then rest else lines
      | [] => lines
    let lines :=
      match lines.getLast? with
      | some last => if pyStrip last = "```" then lines.dropLast else lines
      | none => lines
    pyStrip (String.intercalate "\n" lines)
  else output

/-- The cache key: the supplied key if truthy, else the first 200 characters
of the stripped prompt (`cache_key or prompt.strip()[:200]`). -/
def cacheKeyOf (prompt : String) (cache_key : Option String) : String :=
  match cache_key with
  | some k => if k = "" then pyTake 200 (pyStrip prompt) else k
  | none => pyTake 200 (pyStrip prompt)

/-- The retry loop of `smart_ai`: each attempt issues one completion
request; a response is fence-stripped, cached and returned; a raising
request sleeps and retries; after `max_retry` failures the JSON error
sentinel is returned (and not cached). -/
def smartAiAttempts : Nat → String → ModelState → String × ModelState
  | 0, _, st => (json_dumps (.obj [("error", .str "AI failed after retries")]), st)
  | n + 1, key, st =>
    match st.remote.head? with
    | some (some content) =>
      let output := stripFences content
      (output,
        { st with
          cache := (key, output) :: st.cache
          remote := st.remote.tail
          calls := st.calls + 1 })
    | _ =>
      smartAiAttempts n key
        { st with remote := st.remote.tail, calls := st.calls + 1 }

/-- `smart_ai(prompt, model, cache_key, max_retry, ...)`: consult the cache,
else run the retry loop.  `temperature`/`max_tokens` only parameterize the
remote request and are absorbed by the oracle. -/
def smart_ai (prompt : String) (model cache_key : Option String)
    (max_retry : Nat) (st : ModelState) : String × ModelState :=
  let _use_model := model.getD DEFAULT_MODEL
  let key := cacheKeyOf prompt cache_key
  match st.cache.lookup key with
  | some v => (v, st)
  | none => smartAiAttempts max_retry key st

/-! ## `utils/ai_wrapper.py` — JSON contract layer -/

/-- The span from the first `{` to the last `}` when both exist in order
(the greedy DOTALL search for the candidate JSON object); otherwise the
input unchanged. -/
def braceSpanL (l : List Char) : List Char :=
  match l.findIdx? (· = '{'), rfindIdx l '}' with
  | some i, some j => if i < j then (l.drop i).take (j - i + 1) else l
  | _, _ => l

/-- `fix_truncated_json`: drop a trailing comma, close an apparently
dangling string value with an empty literal, then append the missing `]`s
and `}`s (arrays before objects). -/
def fix_truncated_json (s0 : String) : String :=
  let l := rstripL s0.data
  let l := if l.getLast? = some ',' then l.dropLast else l
  let l :=
    if l.getLast? = some '"' then l
    else if l.contains '"' then
      match rfindIdx l '"' with
      | none => l
      | some lq =>
        match rfindIdx (l.take lq) '"' with
        | none => l
        | some _slq =>
          if (l.drop lq).contains ':' then l.take (lq + 1) ++ ['"', '"'] else l
    else l
  let ob : Int := (l.count '{' : Int) - (l.count '}' : Int)
  let obk : Int := (l.count '[' : Int) - (l.count ']' : Int)
  let l := if (rstripL l).getLast? = some ',' then (rstripL l).dropLast else l
  let l := l ++ List.replicate obk.toNat ']' ++ List.replicate ob.toNat '}'
  ⟨l⟩

/-- `clean_ai_json`: strip fence markers, take the first-brace-to-last-brace
span, parse strictly, and on failure parse the truncation-repaired text;
a raising `json.loads` is an `Except.error`. -/
def clean_ai_json (ai_response : String) : Except String Json :=
  let cleaned := pyStrip (pyReplace (pyReplace ai_response "```json" "") "```" "")
  let cleaned : String := ⟨braceSpanL cleaned.data⟩
  match json_loads cleaned with
  | .ok v => .ok v
  | .error _ => json_loads (fix_truncated_json cleaned)

/-- The guaranteed-dict contract of `safe_json_ai` applied to the raw model
text (the body of `safe_json_ai` after the model call): empty or
whitespace-only text yields an error dict with empty `raw`; a parsed object
is returned as-is; parsed non-object JSON is wrapped; a parse failure
yields an error dict carrying the text truncated to 2000 characters. -/
def parseGuaranteed (raw_output : String) : Json :=
  if pyStrip raw_output = "" then
    .obj [("error", .str "AI returned empty response"), ("raw", .str "")]
  else
    match clean_ai_json raw_output with
    | .ok parsed =>
      match parsed with
      | .obj kvs => .obj kvs
      | _ => .obj [("data", parsed), ("raw", .str raw_output)]
    | .error je =>
      .obj [("error", .str ("Invalid JSON from AI: " ++ pyTake 100 je)),
            ("raw", .str (pyTake 2000 raw_output))]

/-- `safe_json_ai`: one `smart_ai` call (with the default retry budget of 3)
followed by the guaranteed-dict contract.  `default_response` is substituted
when absent, exactly as in the source, where it is then never used. -/
def safe_json_ai (prompt : String) (model cache_key : Option String)
    (default_response : Option Json) (st : ModelState) : Json × ModelState :=
  let _default :=
    default_response.getD (.obj [("error", .str "AI unavailable"), ("raw", .str "")])
  let out := smart_ai prompt model cache_key 3 st
  (parseGuaranteed out.1, out.2)

/-! ## `utils/ai_wrapper.py` — `extract_limited_html`

The `re.sub` passes are modelled by left-to-right scanners with the same
leftmost/lazy/greedy semantics as the corresponding patterns.  Each scanner
is fuelled; the call sites supply `length + 1` fuel, which cannot be
exhausted since every step consumes at least one input character. -/

/-- Case-insensitive prefix test (`pat` given in lower case). -/
def startsWithCI (pat s : List Char) : Bool :=
  match pat, s with
  | [], _ => true
  | _ :: _, [] => false
  | p :: ps, c :: cs => p = c.toLower && startsWithCI ps cs

/-- Split at the first case-insensitive occurrence of `pat`, returning the
text before it and the text after it. -/
def splitFirstCI (pat : List Char) : List Char → Option (List Char × List Char)
  | [] => if pat.isEmpty then some ([], []) else none
  | c :: rest =>
    if startsWithCI pat (c :: rest) then some ([], (c :: rest).drop pat.length)
    else (splitFirstCI pat rest).map (fun p => (c :: p.1, p.2))

/-- `re.sub(openTag + ".*?>.*?" + closeTag, "", s, DOTALL | IGNORECASE)`:
delete every block from an opening tag through `>` through the matching
close tag. -/
def stripTagBlocks (openTag closeTag : List Char) : Nat → List Char → List Char
  | 0, l => l
  | fuel + 1, l =>
    match splitFirstCI openTag l with
    | none => l
    | some (pre, rest) =>
      match splitFirstCI ['>'] rest with
      | none => l
      | some (_, rest2) =>
        match splitFirstCI closeTag rest2 with
        | none => l
        | some (_, after) => pre ++ stripTagBlocks openTag closeTag fuel after

/-- `re.sub(openPat + ".*?" + closePat, "", s, DOTALL)`: delete every block
from `openPat` through `closePat` (used for comments). -/
def stripDelimited (openPat closePat : List Char) : Nat → List Char → List Char
  | 0, l => l
  | fuel + 1, l =>
    match splitFirstCI openPat l with
    | none => l
    | some (pre, rest) =>
      match splitFirstCI closePat rest with
      | none => l
      | some (_, after) => pre ++ stripDelimited openPat closePat fuel after

/-- `re.sub(r"\s+", " ", s)`: collapse every whitespace run to one space.
Fuelled; each step consumes at least one input character. -/
def collapseWs : Nat → List Char → List Char
  | 0, l => l
  | _ + 1, [] => []
  | fuel + 1, c :: rest =>
    if isPyWs c then ' ' :: collapseWs fuel (rest.dropWhile isPyWs)
    else c :: collapseWs fuel rest

/-- Characters matched by `[a-z-]` under `IGNORECASE`. -/
def isDataNameChar (c : Char) : Bool :=
  ('a' ≤ c.toLower && c.toLower ≤ 'z') || c = '-'

/-- `re.sub(r"data-[a-z-]+=\x22[^\x22]*\x22", "", s, IGNORECASE)`. -/
def stripDataAttrs : Nat → List Char → List Char
  | 0, l => l
  | fuel + 1, l =>
    match l with
    | [] => []
    | c :: rest =>
      if startsWithCI ['d', 'a', 't', 'a', '-'] (c :: rest) then
        let afterData := (c :: rest).drop 5
        let run := afterData.takeWhile isDataNameChar
        let afterRun := afterData.dropWhile isDataNameChar
        if run.length ≥ 1 then
          match afterRun with
          | '=' :: '"' :: rest2 =>
            match rest2.dropWhile (· ≠ '"') with
            | '"' :: rest3 => stripDataAttrs fuel rest3
            | _ => c :: stripDataAttrs fuel rest
          | _ => c :: stripDataAttrs fuel rest
        else c :: stripDataAttrs fuel rest
      else c :: stripDataAttrs fuel rest

/-- `re.sub(r"\x7b[^\x7d]\x7b500,\x7d\x7d", "\x7b\x7d", s)`: collapse every
brace-delimited blob of 500 or more non-`\x7d` characters to `\x7b\x7d`. -/
def stripBraceBlobs : Nat → List Char → List Char
  | 0, l => l
  | fuel + 1, l =>
    match l with
    | [] => []
    | c :: rest =>
      if c = '{' then
        match rest.dropWhile (· ≠ '}') with
        | '}' :: rest2 =>
          if (rest.takeWhile (· ≠ '}')).length ≥ 500 then
            '{' :: '}' :: stripBraceBlobs fuel rest2
          else c :: stripBraceBlobs fuel rest
        | _ => c :: stripBraceBlobs fuel rest
      else c :: stripBraceBlobs fuel rest

/-- `extract_limited_html(html, limit)`. -/
def extract_limited_html (html : String) (limit : Int) : String :=
  if html = "" then ""
  else
    let l := html.data
    let l := stripTagBlocks "<script".data "</script>".data (l.length + 1) l
    let l := stripTagBlocks "<style".data "</style>".data (l.length + 1) l
    let l := stripDelimited "<!--".data "-->".data (l.length + 1) l
    let l := stripTagBlocks "<noscript".data "</noscript>".data (l.length + 1) l
    let l := collapseWs (l.length + 1) l
    let l := stripDataAttrs (l.length + 1) l
    let l := stripBraceBlobs (l.length + 1) l
    ⟨pySliceTo limit l⟩

/-! ## `modules/analyse_html.py` — `fetch_raw_html`

The HTTP client is abstracted by an oracle: a list of `NetOutcome`s consumed
one per issued GET request (the unverified fallback request consumes its
own entry).  An exhausted oracle behaves like a raising request.  Of
`urlparse` the code observes only the scheme and the `Invalid IPv6 URL`
`ValueError`; both are modelled, further `ValueError` cases are not. -/

/-- Outcome of one HTTP GET request. -/
inductive NetOutcome where
  | resp (status : Nat) (reason : String) (body : String) : NetOutcome
  | sslError (msg : String) : NetOutcome
  | timeout (msg : String) : NetOutcome
  | exn (msg : String) : NetOutcome
deriving Repr, DecidableEq

/-- The result dict of `fetch_raw_html`. -/
structure FetchResult where
  success : Bool
  status_code : Option Nat
  html : String
  error : String
deriving Repr, DecidableEq

/-- A failure result with only `error` populated. -/
def fetchFail (msg : String) : FetchResult := ⟨false, none, "", msg⟩

/-- Python `repr` of a natural number, as a `String`. -/
def natToStr (n : Nat) : String := ⟨natToStrL n⟩

/-- `is_replit_url`. -/
def is_replit_url (url : String) : Bool :=
  let l := url.data.map Char.toLower
  hasSubstr l ".replit.".data || hasSubstr l "spock.".data ||
    hasSubstr l ".repl.co".data || hasSubstr l "replit.dev".data

/-- Characters allowed in a URL scheme. -/
def schemeChar (c : Char) : Bool :=
  c.isAlpha || c.isDigit || c = '+' || c = '-' || c = '.'

/-- `urlparse(url).scheme`: the lower-cased text before the first `:` when
it is non-empty, starts with an ASCII letter and consists of scheme
characters; `""` otherwise. -/
def urlScheme (s : String) : String :=
  let l := s.data
  let pre := l.takeWhile (· ≠ ':')
  if l.contains ':' && pre.length > 0 && (pre.headD ' ').isAlpha && pre.all schemeChar
  then ⟨pre.map Char.toLower⟩ else ""

/-- The netloc: text up to the first `/`, `?` or `#`. -/
def netlocOf (l : List Char) : List Char :=
  l.takeWhile (fun c => c ≠ '/' && c ≠ '?' && c ≠ '#')

/-- Whether `urlparse` succeeds (does not raise `Invalid IPv6 URL`): when a
`//` netloc is present it must contain `[` and `]` consistently. -/
def urlparseOk (s : String) : Bool :=
  let rest := if urlScheme s = "" then s.data else (s.data.dropWhile (· ≠ ':')).drop 1
  if ['/', '/'].isPrefixOf rest then
    let nl := netlocOf (rest.drop 2)
    nl.contains '[' == nl.contains ']'
  else true

/-- The URL after the missing-scheme normalization (`"https://" + url`). -/
def normUrl (url : String) : String :=
  if urlScheme url = "" then "https://" ++ url else url

/-- The retry loop of `fetch_raw_html`: up to `n` rounds, each consuming one
oracle entry (two when the SSL fallback request is issued), threading the
partially updated result dict and `last_error`.  Returns the result and the
number of requests issued. -/
def fetchAttempts (timeoutSecs : Nat) :
    Nat → FetchResult → Option String → List NetOutcome → Nat → FetchResult × Nat
  | 0, res, lastErr, _, consumed =>
    ({ res with
        error :=
          match lastErr with
          | some m => if m = "" then "Failed after 3 attempts" else m
          | none => "Failed after 3 attempts" }, consumed)
  | n + 1, res, _, [], consumed =>
    fetchAttempts timeoutSecs n res (some "network unavailable") [] (consumed + 1)
  | n + 1, res, _, .resp status reason body :: net, consumed =>
    let res := { res with status_code := some status }
    if status = 200 then
      if body.length < 50 then
        fetchAttempts timeoutSecs n res
          (some "Empty or slow response from server") net (consumed + 1)
      else ({ res with success := true, html := body }, consumed + 1)
    else
      ({ res with error := "HTTP " ++ natToStr status ++ ": " ++ reason },
        consumed + 1)
  | n + 1, res, _, .sslError _ :: [], consumed =>
    fetchAttempts timeoutSecs n res (some "network unavailable") [] (consumed + 2)
  | n + 1, res, lastErr, .sslError _ :: .resp status2 _ body2 :: net, consumed =>
    let res := { res with status_code := some status2 }
    if status2 = 200 && 50 ≤ body2.length then
      ({ res with success := true, html := body2 }, consumed + 2)
    else fetchAttempts timeoutSecs n res lastErr net (consumed + 2)
  | n + 1, res, _, .sslError _ :: .sslError m2 :: net, consumed =>
    fetchAttempts timeoutSecs n res (some m2) net (consumed + 2)
  | n + 1, res, _, .sslError _ :: .timeout m2 :: net, consumed =>
    fetchAttempts timeoutSecs n res (some m2) net (consumed + 2)
  | n + 1, res, _, .sslError _ :: .exn m2 :: net, consumed =>
    fetchAttempts timeoutSecs n res (some m2) net (consumed + 2)
  | n + 1, res, _, .timeout _ :: net, consumed =>
    fetchAttempts timeoutSecs n res
      (some ("Request timeout (> " ++ natToStr timeoutSecs ++ " seconds)"))
      net (consumed + 1)
  | n + 1, res, _, .exn m :: net, consumed =>
    fetchAttempts timeoutSecs n res (some m) net (consumed + 1)

/-- `fetch_raw_html(url)`, against the network oracle `net`. -/
def fetch_raw_html (url : String) (net : List NetOutcome) : FetchResult × Nat :=
  if urlparseOk url = false then (fetchFail "Invalid URL: Invalid IPv6 URL", 0)
  else if pyStrip url = "" then (fetchFail "URL cannot be empty", 0)
  else if urlparseOk (normUrl url) = false then
    (fetchFail "Invalid URL: Invalid IPv6 URL", 0)
  else if urlScheme (normUrl url) = "http" || urlScheme (normUrl url) = "https" then
    fetchAttempts (if is_replit_url (normUrl url) then 45 else 20) 3
      ⟨false, none, "", ""⟩ none net 0
  else
    (fetchFail ("Invalid scheme: " ++ urlScheme (normUrl url) ++
      ". Only http and https are supported."), 0)

/-- The guard conjunction under which `fetch_raw_html` reaches the network
loop. -/
def reachesNetwork (url : String) : Bool :=
  urlparseOk url && !(pyStrip url == "") && urlparseOk (normUrl url) &&
    (urlScheme (normUrl url) == "http" || urlScheme (normUrl url) == "https")

/-! ## Claim-statement vocabulary -/

/-- The truncated input of the repair test: `\x7b"a": 1, "b": [1,2`. -/
def c3Input : String := "\x7b\"a\": 1, \"b\": [1,2"

/-- Scalar JSON values (string / number / boolean). -/
def isScalar : Json → Bool
  | .str _ => true
  | .num _ => true
  | .bool _ => true
  | _ => false

/-- Values allowed by the round-trip claim: scalars, arrays of scalars, and
string-valued objects. -/
def isSimpleVal : Json → Bool
  | .arr xs => xs.all isScalar
  | .obj kvs => kvs.all (fun kv => match kv.2 with | .str _ => true | _ => false)
  | v => isScalar v

/-- The round-trip claim domain: an object whose values are strings,
numbers, booleans, arrays (of scalars), or string-valued objects. -/
def isSimpleDict : Json → Bool
  | .obj kvs => kvs.all (fun kv => isSimpleVal kv.2)
  | _ => false

/-- Three consecutive backticks, the fence marker removed by
`clean_ai_json`. -/
def fenceMarker : List Char := ['`', '`', '`']

/-! # Theorems -/

/-! ## Cache behaviour of `smart_ai` (C5, C9, C10) -/

/-- Cache purity: one run of the retry loop either leaves the cache alone or
conses the fence-stripped content of a successful request from the oracle. -/
theorem smartAiAttempts_cache_pure (n : Nat) (key : String) (st : ModelState) :
    (smartAiAttempts n key st).2.cache = st.cache ∨
      ∃ content, some content ∈ st.remote ∧
        (smartAiAttempts n key st).2.cache = (key, stripFences content) :: st.cache := by
  induction n generalizing st with
  | zero => exact Or.inl rfl
  | succ n ih =>
    match hr : st.remote with
    | [] => simpa [smartAiAttempts, hr] using ih { st with remote := [], calls := st.calls + 1 }
    | some content :: rest =>
      exact Or.inr ⟨content, by simp [hr], by simp [smartAiAttempts, hr]⟩
    | none :: rest =>
      rcases ih { st with remote := rest, calls := st.calls + 1 } with h | ⟨c, hc, h⟩
      · exact Or.inl (by simpa [smartAiAttempts, hr] using h)
      · exact Or.inr ⟨c, by simp [hr, hc], by simpa [smartAiAttempts, hr] using h⟩

/-- C10: `default_response` has no effect — for any two default values,
`safe_json_ai` computes identical results on every input and state; the
substituted fallback dict is bound and never used, exactly as in the
source. -/
theorem C10_default_response_no_effect (prompt : String)
    (model cache_key : Option String) (d1 d2 : Option Json) (st : ModelState) :
    safe_json_ai prompt model cache_key d1 st =
      safe_json_ai prompt model cache_key d2 st := rfl

/-- C5: with a fresh cache key and a first request that succeeds, `smart_ai`
issues exactly one model request; a second call with the same prompt and key
returns the stored fence-stripped text and leaves the state (in particular
the request count and the rest of the oracle) untouched, whatever the remote
would answer next. -/
theorem C5_second_call_cached (prompt : String) (model cache_key : Option String)
    (out : String) (rest : List (Option String))
    (cache0 : List (String × String)) (n0 : Nat)
    (hfresh : cache0.lookup (cacheKeyOf prompt cache_key) = none) :
    (smart_ai prompt model cache_key 3 ⟨cache0, some out :: rest, n0⟩).1 =
        stripFences out ∧
      (smart_ai prompt model cache_key 3 ⟨cache0, some out :: rest, n0⟩).2.calls =
        n0 + 1 ∧
      smart_ai prompt model cache_key 3
          (smart_ai prompt model cache_key 3 ⟨cache0, some out :: rest, n0⟩).2 =
        (stripFences out,
          (smart_ai prompt model cache_key 3 ⟨cache0, some out :: rest, n0⟩).2) := by
  refine ⟨?_, ?_, ?_⟩ <;>
    simp [smart_ai, smartAiAttempts, hfresh, List.lookup]

/-- Witness for C5 at a concrete prompt, key, and oracle. -/
theorem C5_second_call_cached_witness :
    (smart_ai "p" none (some "k") 3 ⟨[], [some "hello", some "different"], 0⟩).1 =
        stripFences "hello" ∧
      (smart_ai "p" none (some "k") 3 ⟨[], [some "hello", some "different"], 0⟩).2.calls =
        0 + 1 ∧
      smart_ai "p" none (some "k") 3
          (smart_ai "p" none (some "k") 3 ⟨[], [some "hello", some "different"], 0⟩).2 =
        (stripFences "hello",
          (smart_ai "p" none (some "k") 3 ⟨[], [some "hello", some "different"], 0⟩).2) :=
  C5_second_call_cached "p" none (some "k") "hello" [some "different"] [] 0 rfl

/-- C9: the failure sentinel is never cached — after three raising requests
`smart_ai` returns the JSON error sentinel and leaves the cache untouched,
so a further call with the same key issues a fresh model request (and
returns its fence-stripped answer) instead of a cached error; in general the
retry loop only ever stores fence-stripped text of a successful request. -/
theorem C9_error_sentinel_not_cached (prompt : String)
    (model cache_key : Option String) (cache0 : List (String × String))
    (n0 : Nat) (out : String) (rest : List (Option String))
    (hfresh : cache0.lookup (cacheKeyOf prompt cache_key) = none) :
    (smart_ai prompt model cache_key 3
        ⟨cache0, none :: none :: none :: some out :: rest, n0⟩).1 =
      json_dumps (.obj [("error", .str "AI failed after retries")]) ∧
    (smart_ai prompt model cache_key 3
        ⟨cache0, none :: none :: none :: some out :: rest, n0⟩).2.cache = cache0 ∧
    (smart_ai prompt model cache_key 3
        ⟨cache0, none :: none :: none :: some out :: rest, n0⟩).2.calls = n0 + 3 ∧
    (smart_ai prompt model cache_key 3
        (smart_ai prompt model cache_key 3
          ⟨cache0, none :: none :: none :: some out :: rest, n0⟩).2).1 =
      stripFences out ∧
    (smart_ai prompt model cache_key 3
        (smart_ai prompt model cache_key 3
          ⟨cache0, none :: none :: none :: some out :: rest, n0⟩).2).2.calls =
      n0 + 4 ∧
    (∀ (n : Nat) (key : String) (st : ModelState),
      (smartAiAttempts n key st).2.cache = st.cache ∨
        ∃ content, some content ∈ st.remote ∧
          (smartAiAttempts n key st).2.cache = (key, stripFences content) :: st.cache) := by
  refine ⟨?_, ?_, ?_, ?_, ?_, fun n key st => smartAiAttempts_cache_pure n key st⟩ <;>
    simp [smart_ai, smartAiAttempts, hfresh, List.lookup]

/-- Witness for C9 at a concrete prompt, key, and oracle. -/
theorem C9_error_sentinel_not_cached_witness :
    (smart_ai "p" none (some "k") 3 ⟨[], none :: none :: none :: some "X" :: [], 7⟩).1 =
      json_dumps (.obj [("error", .str "AI failed after retries")]) ∧
    (smart_ai "p" none (some "k") 3
        ⟨[], none :: none :: none :: some "X" :: [], 7⟩).2.cache = [] ∧
    (smart_ai "p" none (some "k") 3
        ⟨[], none :: none :: none :: some "X" :: [], 7⟩).2.calls = 7 + 3 ∧
    (smart_ai "p" none (some "k") 3
        (smart_ai "p" none (some "k") 3
          ⟨[], none :: none :: none :: some "X" :: [], 7⟩).2).1 = stripFences "X" ∧
    (smart_ai "p" none (some "k") 3
        (smart_ai "p" none (some "k") 3
          ⟨[], none :: none :: none :: some "X" :: [], 7⟩).2).2.calls = 7 + 4 ∧
    (∀ (n : Nat) (key : String) (st : ModelState),
      (smartAiAttempts n key st).2.cache = st.cache ∨
        ∃ content, some content ∈ st.remote ∧
          (smartAiAttempts n key st).2.cache = (key, stripFences content) :: st.cache) :=
  C9_error_sentinel_not_cached "p" none (some "k") [] 7 "X" [] rfl

/-! ## The fetcher (C6) -/

/-- C6: when the URL passes validation and the first HTTP response has a
non-200 status, `fetch_raw_html` returns immediately — exactly one request,
no retries — with `success = false`, that status code, and an error string
carrying status and reason. -/
theorem C6_non_200_fails_immediately (url : String) (status : Nat)
    (reason body : String) (rest : List NetOutcome)
    (hok : reachesNetwork url = true) (hs : status ≠ 200) :
    fetch_raw_html url (.resp status reason body :: rest) =
      (⟨false, some status, "", "HTTP " ++ natToStr status ++ ": " ++ reason⟩, 1) := by
  simp only [reachesNetwork, Bool.and_eq_true, Bool.or_eq_true, beq_iff_eq,
    Bool.not_eq_true', beq_eq_false_iff_ne] at hok
  obtain ⟨⟨⟨h1, h2⟩, h3⟩, h4⟩ := hok
  simp [fetch_raw_html, h1, h2, h3, fetchAttempts, hs]
  rcases h4 with h4 | h4 <;> simp [h4]

/-- Witness for C6: a 404 on the first attempt. -/
theorem C6_non_200_fails_immediately_witness :
    fetch_raw_html "https://example.com" [.resp 404 "Not Found" "irrelevant"] =
      (⟨false, some 404, "", "HTTP " ++ natToStr 404 ++ ": " ++ "Not Found"⟩, 1) :=
  C6_non_200_fails_immediately "https://example.com" 404 "Not Found" "irrelevant" []
    (by decide) (by decide)

/-! ## The truncation repair on the spec's test input (C3) -/

/-- C3: on the input `\x7b"a": 1, "b": [1,2` the dangling-string heuristic of
`fix_truncated_json` rewrites the candidate to `\x7b"a": 1, "b"""\x7d`, which
does not parse, so `parseGuaranteed` yields the error-shaped dict — not the
repaired `\x7b"a": 1, "b": [1, 2]\x7d` that the spec requires. -/
theorem C3_repair_loses_truncated_value :
    fix_truncated_json c3Input = "\x7b\"a\": 1, \"b\"\"\"\x7d" ∧
    (jsonLookup (parseGuaranteed c3Input) "error").isSome = true ∧
    jsonLookup (parseGuaranteed c3Input) "raw" = some (.str c3Input) ∧
    parseGuaranteed c3Input ≠
      .obj [("a", .num 1), ("b", .arr [.num 1, .num 2])] := by
  refine ⟨by rfl, by rfl, by rfl, ?_⟩
  have he : parseGuaranteed c3Input =
      .obj [("error", .str "Invalid JSON from AI: Expecting value"),
            ("raw", .str c3Input)] := by rfl
  rw [he]
  intro h
  simp [c3Input] at h

/-! ## The guaranteed-dict contract (C1) -/

/-- Empty or whitespace-only input short-circuits with an empty `raw`. -/
theorem parseGuaranteed_empty (raw : String) (h : pyStrip raw = "") :
    parseGuaranteed raw =
      .obj [("error", .str "AI returned empty response"), ("raw", .str "")] := by
  simp [parseGuaranteed, h]

/-- A parsed object is returned as-is. -/
theorem parseGuaranteed_ok_obj (raw : String) (h : pyStrip raw ≠ "")
    (kvs : List (String × Json)) (hc : clean_ai_json raw = .ok (.obj kvs)) :
    parseGuaranteed raw = .obj kvs := by
  simp [parseGuaranteed, h, hc]

/-- Parsed non-object JSON is wrapped as a `data`/`raw` dict. -/
theorem parseGuaranteed_ok_nonobj (raw : String) (h : pyStrip raw ≠ "")
    (v : Json) (hc : clean_ai_json raw = .ok v) (hv : ∀ kvs, v ≠ .obj kvs) :
    parseGuaranteed raw = .obj [("data", v), ("raw", .str raw)] := by
  cases v <;> first
    | exact absurd rfl (hv _)
    | simp [parseGuaranteed, h, hc]

/-- A parse failure yields the error dict carrying the truncated input. -/
theorem parseGuaranteed_error (raw : String) (h : pyStrip raw ≠ "")
    (e : String) (hc : clean_ai_json raw = .error e) :
    parseGuaranteed raw =
      .obj [("error", .str ("Invalid JSON from AI: " ++ pyTake 100 e)),
            ("raw", .str (pyTake 2000 raw))] := by
  simp [parseGuaranteed, h, hc]

/-- C1 counterexample: on the whitespace-only model text `" "` the contract
layer returns `raw = ""`, not the original text truncated to the cap
(`pyTake 2000 " " = " "`), so the `raw`-equals-truncated-input part of the
claim fails on this input. -/
theorem C1_whitespace_raw_counterexample :
    parseGuaranteed " " =
      .obj [("error", .str "AI returned empty response"), ("raw", .str "")] ∧
    pyTake 2000 " " = " " ∧ ("" : String) ≠ " " :=
  ⟨rfl, rfl, by decide⟩

/-- C1 amended: `parseGuaranteed` always returns a dict and never fails;
empty or whitespace-only input yields an error dict with `raw = ""`; for
other input, a parsed JSON object is returned as-is, parsed non-object JSON
is wrapped as a `data`/`raw` dict, and on irrecoverable parse failure the
result carries an `error` key and a `raw` key equal to the input truncated
to 2000 characters. -/
theorem C1_guaranteed_dict_contract (raw : String) :
    (∃ kvs, parseGuaranteed raw = .obj kvs) ∧
    (pyStrip raw = "" →
      parseGuaranteed raw =
        .obj [("error", .str "AI returned empty response"), ("raw", .str "")]) ∧
    (pyStrip raw ≠ "" → ∀ kvs, clean_ai_json raw = .ok (.obj kvs) →
      parseGuaranteed raw = .obj kvs) ∧
    (pyStrip raw ≠ "" → ∀ v, clean_ai_json raw = .ok v → (∀ kvs, v ≠ .obj kvs) →
      parseGuaranteed raw = .obj [("data", v), ("raw", .str raw)]) ∧
    (pyStrip raw ≠ "" → ∀ e, clean_ai_json raw = .error e →
      (jsonLookup (parseGuaranteed raw) "error").isSome = true ∧
        jsonLookup (parseGuaranteed raw) "raw" = some (.str (pyTake 2000 raw))) := by
  refine ⟨?_, fun h0 => parseGuaranteed_empty raw h0,
    fun h kvs hc => parseGuaranteed_ok_obj raw h kvs hc,
    fun h v hc hv => parseGuaranteed_ok_nonobj raw h v hc hv,
    fun h e hc => ?_⟩
  · by_cases h0 : pyStrip raw = ""
    · exact ⟨_, parseGuaranteed_empty raw h0⟩
    · match hc : clean_ai_json raw with
      | .ok (.obj kvs) => exact ⟨kvs, parseGuaranteed_ok_obj raw h0 kvs hc⟩
      | .ok .null =>
        exact ⟨_, parseGuaranteed_ok_nonobj raw h0 _ hc (fun _ => Json.noConfusion)⟩
      | .ok (.bool b) =>
        exact ⟨_, parseGuaranteed_ok_nonobj raw h0 _ hc (fun _ => Json.noConfusion)⟩
      | .ok (.num n) =>
        exact ⟨_, parseGuaranteed_ok_nonobj raw h0 _ hc (fun _ => Json.noConfusion)⟩
      | .ok (.str s) =>
        exact ⟨_, parseGuaranteed_ok_nonobj raw h0 _ hc (fun _ => Json.noConfusion)⟩
      | .ok (.arr xs) =>
        exact ⟨_, parseGuaranteed_ok_nonobj raw h0 _ hc (fun _ => Json.noConfusion)⟩
      | .error e => exact ⟨_, parseGuaranteed_error raw h0 e hc⟩
  · rw [parseGuaranteed_error raw h e hc]
    exact ⟨rfl, rfl⟩

/-- Witness for C1 at the spec's canonical failure input. -/
theorem C1_guaranteed_dict_contract_witness :
    (jsonLookup (parseGuaranteed "not json at all") "error").isSome = true ∧
      jsonLookup (parseGuaranteed "not json at all") "raw" =
        some (.str (pyTake 2000 "not json at all")) :=
  (C1_guaranteed_dict_contract "not json at all").2.2.2.2 (by decide)
    "Expecting value" rfl

/-! ## Scheme normalization of the fetcher (C7) -/

/-- `String.append` concatenates the underlying character lists. -/
theorem strDataAppend (a b : String) : (a ++ b).data = a.data ++ b.data := rfl

/-- Prepending `https://` always produces the scheme `https`. -/
theorem urlScheme_https_prepend (url : String) :
    urlScheme ("https://" ++ url) = "https" := by
  simp [urlScheme, strDataAppend]
  decide

/-- Stripping a string that starts with a non-whitespace character is
non-empty. -/
theorem stripL_cons_ne_nil (c : Char) (l : List Char) (h : isPyWs c = false) :
    stripL (c :: l) ≠ [] := by
  intro he
  rw [stripL, lstripL, List.dropWhile_cons_of_neg (by simp [h])] at he
  have h2 : List.dropWhile isPyWs ((c :: l).reverse) = [] := by
    simpa [rstripL] using congrArg List.reverse he
  rw [List.dropWhile_eq_nil_iff] at h2
  exact absurd (h2 c (by simp)) (by simp [h])

/-- URLs starting with `https://` survive the emptiness check. -/
theorem pyStrip_https_ne_empty (url : String) :
    pyStrip ("https://" ++ url) ≠ "" := by
  intro he
  have : stripL (("https://" ++ url).data) = [] := by
    simpa [pyStrip] using congrArg String.data he
  rw [strDataAppend] at this
  exact stripL_cons_ne_nil 'h' _ (by decide) this

/-- C7 counterexample: the empty string lacks a scheme, yet `fetch("")`
fails the emptiness check while `fetch("https://" + "")` reaches the
network (three failing attempts here), so the two results differ. -/
theorem C7_empty_url_counterexample :
    fetch_raw_html "" [.exn "boom", .exn "boom", .exn "boom"] ≠
      fetch_raw_html ("https://" ++ "") [.exn "boom", .exn "boom", .exn "boom"] := by
  intro h
  have h1 : (fetch_raw_html "" [.exn "boom", .exn "boom", .exn "boom"]).2 = 0 := rfl
  rw [h] at h1
  have h2 : (fetch_raw_html ("https://" ++ "")
      [.exn "boom", .exn "boom", .exn "boom"]).2 = 3 := rfl
  rw [h2] at h1
  exact absurd h1 (by decide)

/-- C7 amended: for every URL whose stripped text is non-empty, that lacks a
scheme, and whose parse does not raise, `fetch_raw_html` behaves identically
to the same URL prefixed with `https://`, against any network oracle. -/
theorem C7_missing_scheme_prepends_https (url : String) (net : List NetOutcome)
    (hne : pyStrip url ≠ "") (hs : urlScheme url = "")
    (hp : urlparseOk url = true) :
    fetch_raw_html url net = fetch_raw_html ("https://" ++ url) net := by
  have hnorm : normUrl url = "https://" ++ url := by simp [normUrl, hs]
  have hsch : urlScheme ("https://" ++ url) = "https" := urlScheme_https_prepend url
  have hnorm2 : normUrl ("https://" ++ url) = "https://" ++ url := by
    simp [normUrl, hsch]
  by_cases hp2 : urlparseOk ("https://" ++ url) = true
  · have hne2 := pyStrip_https_ne_empty url
    simp [fetch_raw_html, hp, hne, hp2, hnorm, hnorm2, hsch, hne2]
  · have hp2' : urlparseOk ("https://" ++ url) = false := by
      simpa using hp2
    simp [fetch_raw_html, hp, hne, hp2', hnorm]

/-- Witness for C7 at `example.com` with a successful network response. -/
theorem C7_missing_scheme_prepends_https_witness :
    fetch_raw_html "example.com"
        [.resp 200 "OK" "<html><body>ok ok ok ok ok ok ok ok ok ok ok ok ok ok</body></html>"] =
      fetch_raw_html ("https://" ++ "example.com")
        [.resp 200 "OK" "<html><body>ok ok ok ok ok ok ok ok ok ok ok ok ok ok</body></html>"] :=
  C7_missing_scheme_prepends_https "example.com" _ (by decide) rfl rfl

/-! ## The success invariant of the fetcher (C2) -/

/-- When the retry loop fails, the `html` field is left untouched. -/
theorem fetchAttempts_fail_html (t n : Nat) :
    ∀ (res : FetchResult) (le : Option String) (net : List NetOutcome) (k : Nat),
      (fetchAttempts t n res le net k).1.success = false →
      (fetchAttempts t n res le net k).1.html = res.html := by
  induction n with
  | zero => intro res le net k _; rfl
  | succ n ih =>
    intro res le net k hf
    match net with
    | [] =>
      rw [fetchAttempts] at hf ⊢
      exact ih _ _ _ _ hf
    | .resp status reason body :: net' =>
      rw [fetchAttempts] at hf ⊢
      by_cases h200 : status = 200
      · by_cases hshort : body.length < 50
        · rw [if_pos h200, if_pos hshort] at hf ⊢
          exact ih { res with status_code := some status }
            (some "Empty or slow response from server") net' (k + 1) hf
        · rw [if_pos h200, if_neg hshort] at hf
          simp at hf
      · rw [if_neg h200] at hf ⊢
    | .sslError m :: [] =>
      rw [fetchAttempts] at hf ⊢
      exact ih res (some "network unavailable") [] (k + 2) hf
    | .sslError m :: .resp status2 reason2 body2 :: net' =>
      rw [fetchAttempts] at hf ⊢
      by_cases hcond : (status2 = 200 && 50 ≤ body2.length) = true
      · rw [if_pos hcond] at hf
        simp at hf
      · rw [if_neg hcond] at hf ⊢
        exact ih { res with status_code := some status2 } le net' (k + 2) hf
    | .sslError m :: .sslError m2 :: net' =>
      rw [fetchAttempts] at hf ⊢; exact ih _ _ _ _ hf
    | .sslError m :: .timeout m2 :: net' =>
      rw [fetchAttempts] at hf ⊢; exact ih _ _ _ _ hf
    | .sslError m :: .exn m2 :: net' =>
      rw [fetchAttempts] at hf ⊢; exact ih _ _ _ _ hf
    | .timeout m :: net' =>
      rw [fetchAttempts] at hf ⊢; exact ih _ _ _ _ hf
    | .exn m :: net' =>
      rw [fetchAttempts] at hf ⊢; exact ih _ _ _ _ hf

/-- When the retry loop succeeds, the returned `html` is the body of a 200
response from the oracle and has at least the viability length 50. -/
theorem fetchAttempts_success_mem (t n : Nat) :
    ∀ (res : FetchResult) (le : Option String) (net : List NetOutcome) (k : Nat),
      res.success = false →
      (fetchAttempts t n res le net k).1.success = true →
      50 ≤ (fetchAttempts t n res le net k).1.html.length ∧
        ∃ reason,
          NetOutcome.resp 200 reason ((fetchAttempts t n res le net k).1.html) ∈ net := by
  induction n with
  | zero =>
    intro res le net k hres hs
    exact absurd hs (by simp [fetchAttempts, hres])
  | succ n ih =>
    intro res le net k hres hs
    match net with
    | [] =>
      rw [fetchAttempts] at hs ⊢
      exact ih _ _ _ _ hres hs
    | .resp status reason body :: net' =>
      rw [fetchAttempts] at hs ⊢
      by_cases h200 : status = 200
      · by_cases hshort : body.length < 50
        · rw [if_pos h200, if_pos hshort] at hs ⊢
          obtain ⟨hlen, r, hmem⟩ := ih { res with status_code := some status }
            (some "Empty or slow response from server") net' (k + 1) hres hs
          exact ⟨hlen, r, List.mem_cons_of_mem _ hmem⟩
        · rw [if_pos h200, if_neg hshort] at hs ⊢
          subst h200
          refine ⟨?_, reason, ?_⟩
          · show 50 ≤ body.length
            omega
          · show NetOutcome.resp 200 reason body ∈ _
            exact List.mem_cons_self _ _
      · rw [if_neg h200] at hs
        exact absurd hs (by simp [hres])
    | .sslError m :: [] =>
      rw [fetchAttempts] at hs ⊢
      obtain ⟨hlen, r, hmem⟩ := ih res (some "network unavailable") [] (k + 2) hres hs
      simp at hmem
    | .sslError m :: .resp status2 reason2 body2 :: net' =>
      rw [fetchAttempts] at hs ⊢
      by_cases hcond : (status2 = 200 && 50 ≤ body2.length) = true
      · rw [if_pos hcond] at hs ⊢
        simp only [Bool.and_eq_true, decide_eq_true_eq] at hcond
        obtain ⟨h2eq, h2len⟩ := hcond
        subst h2eq
        refine ⟨?_, reason2, ?_⟩
        · show 50 ≤ body2.length
          omega
        · show NetOutcome.resp 200 reason2 body2 ∈ _
          exact List.mem_cons_of_mem _ (List.mem_cons_self _ _)
      · rw [if_neg hcond] at hs ⊢
        obtain ⟨hlen, r, hmem⟩ :=
          ih { res with status_code := some status2 } le net' (k + 2) hres hs
        exact ⟨hlen, r, List.mem_cons_of_mem _ (List.mem_cons_of_mem _ hmem)⟩
    | .sslError m :: .sslError m2 :: net' =>
      rw [fetchAttempts] at hs ⊢
      obtain ⟨hlen, r, hmem⟩ := ih res (some m2) net' (k + 2) hres hs
      exact ⟨hlen, r, List.mem_cons_of_mem _ (List.mem_cons_of_mem _ hmem)⟩
    | .sslError m :: .timeout m2 :: net' =>
      rw [fetchAttempts] at hs ⊢
      obtain ⟨hlen, r, hmem⟩ := ih res (some m2) net' (k + 2) hres hs
      exact ⟨hlen, r, List.mem_cons_of_mem _ (List.mem_cons_of_mem _ hmem)⟩
    | .sslError m :: .exn m2 :: net' =>
      rw [fetchAttempts] at hs ⊢
      obtain ⟨hlen, r, hmem⟩ := ih res (some m2) net' (k + 2) hres hs
      exact ⟨hlen, r, List.mem_cons_of_mem _ (List.mem_cons_of_mem _ hmem)⟩
    | .timeout m :: net' =>
      rw [fetchAttempts] at hs ⊢
      obtain ⟨hlen, r, hmem⟩ := ih res
        (some ("Request timeout (> " ++ natToStr t ++ " seconds)")) net' (k + 1) hres hs
      exact ⟨hlen, r, List.mem_cons_of_mem _ hmem⟩
    | .exn m :: net' =>
      rw [fetchAttempts] at hs ⊢
      obtain ⟨hlen, r, hmem⟩ := ih res (some m) net' (k + 1) hres hs
      exact ⟨hlen, r, List.mem_cons_of_mem _ hmem⟩

/-- C2: the `FetchResult` of `fetch_raw_html` satisfies `success = true`
exactly when its `html` field is non-empty and is the at-least-50-character
body of a 2xx response obtained from the network (the code only ever
succeeds with status 200). -/
theorem C2_success_iff_viable_html (url : String) (net : List NetOutcome) :
    (fetch_raw_html url net).1.success = true ↔
      ((fetch_raw_html url net).1.html ≠ "" ∧
        50 ≤ (fetch_raw_html url net).1.html.length ∧
        ∃ status reason, 200 ≤ status ∧ status < 300 ∧
          NetOutcome.resp status reason ((fetch_raw_html url net).1.html) ∈ net) := by
  unfold fetch_raw_html
  by_cases h1 : urlparseOk url = false
  · rw [if_pos h1]; simp [fetchFail]
  · rw [if_neg h1]
    by_cases h2 : pyStrip url = ""
    · rw [if_pos h2]; simp [fetchFail]
    · rw [if_neg h2]
      by_cases h3 : urlparseOk (normUrl url) = false
      · rw [if_pos h3]; simp [fetchFail]
      · rw [if_neg h3]
        by_cases h4 : (urlScheme (normUrl url) = "http" ||
            urlScheme (normUrl url) = "https") = true
        · rw [if_pos h4]
          constructor
          · intro hs
            obtain ⟨hlen, r, hmem⟩ := fetchAttempts_success_mem _ 3 _ none net 0 rfl hs
            refine ⟨?_, hlen, 200, r, le_refl _, by omega, hmem⟩
            intro he
            rw [he] at hlen
            simp [String.length] at hlen
          · rintro ⟨hne, -, -⟩
            by_contra hns
            rw [Bool.not_eq_true] at hns
            exact hne (fetchAttempts_fail_html _ 3 _ none net 0 hns)
        · rw [if_neg h4]; simp [fetchFail]

/-! ## Round-trip of the JSON layer on well-formed serializations (C4) -/

/-- `hexVal` inverts `hexDigitChar` below 16. -/
theorem hexVal_hexDigitChar (d : Nat) (h : d < 16) :
    hexVal (hexDigitChar d) = some d := by
  interval_cases d <;> decide

/-- Parsing a string-literal body inverts the serializer's escaping. -/
theorem parseStringBody_roundtrip (s : List Char) (r : List Char) :
    parseStringBody ((s.map escChar).flatten ++ '"' :: r) = some (s, r) := by
  induction s with
  | nil =>
    rw [List.map_nil, List.flatten_nil, List.nil_append, parseStringBody.eq_def]
    simp
  | cons c cs ih =>
    have step : (((c :: cs).map escChar).flatten ++ '"' :: r) =
        escChar c ++ ((cs.map escChar).flatten ++ '"' :: r) := by
      simp [List.append_assoc]
    rw [step]
    by_cases h1 : c = '"'
    · subst h1
      rw [show escChar '"' = ['\\', '"'] from rfl, parseStringBody.eq_def]
      simp [ih]
    · by_cases h2 : c = '\\'
      · subst h2
        rw [show escChar '\\' = ['\\', '\\'] from rfl, parseStringBody.eq_def]
        simp [ih]
      · by_cases h3 : c = '\n'
        · subst h3
          rw [show escChar '\n' = ['\\', 'n'] from rfl, parseStringBody.eq_def]
          simp [ih]
        · by_cases h4 : c = '\r'
          · subst h4
            rw [show escChar '\r' = ['\\', 'r'] from rfl, parseStringBody.eq_def]
            simp [ih]
          · by_cases h5 : c = '\t'
            · subst h5
              rw [show escChar '\t' = ['\\', 't'] from rfl, parseStringBody.eq_def]
              simp [ih]
            · by_cases h6 : c = '\x08'
              · subst h6
                rw [show escChar '\x08' = ['\\', 'b'] from rfl, parseStringBody.eq_def]
                simp [ih]
              · by_cases h7 : c = '\x0c'
                · subst h7
                  rw [show escChar '\x0c' = ['\\', 'f'] from rfl,
                    parseStringBody.eq_def]
                  simp [ih]
                · by_cases h8 : c.toNat < 0x20
                  · have hdiv : c.toNat / 16 < 16 := by omega
                    have hmod : c.toNat % 16 < 16 := Nat.mod_lt _ (by omega)
                    have he : escChar c =
                        ['\\', 'u', '0', '0', hexDigitChar (c.toNat / 16),
                          hexDigitChar (c.toNat % 16)] := by
                      simp [escChar, h1, h2, h3, h4, h5, h6, h7, h8]
                    rw [he, parseStringBody.eq_def]
                    have hcode : ((0 * 16 + 0) * 16 + c.toNat / 16) * 16 +
                        c.toNat % 16 = c.toNat := by omega
                    simp only [List.cons_append, List.nil_append]
                    simp [hexVal_hexDigitChar _ hdiv, hexVal_hexDigitChar _ hmod,
                      show hexVal '0' = some 0 from rfl, hcode,
                      show c.toNat < 55296 by omega, ih]
                    refine ⟨Or.inl (by omega), ?_⟩
                    rw [show c.toNat / 16 * 16 + c.toNat % 16 = c.toNat from by
                      omega, Char.ofNat_toNat]
                  · have he : escChar c = [c] := by
                      simp [escChar, h1, h2, h3, h4, h5, h6, h7, h8]
                    rw [he, parseStringBody.eq_def]
                    simp [h1, h2, h8, ih]

/-- `natDigitsAux` of zero is empty for any fuel. -/
theorem natDigitsAux_zero (fuel : Nat) : natDigitsAux fuel 0 = [] := by
  cases fuel <;> simp [natDigitsAux]

/-- The emitted digit characters are decimal digits. -/
theorem digitChar_isDigit (d : Nat) (h : d < 10) :
    (Char.ofNat (48 + d)).isDigit = true := by
  interval_cases d <;> decide

/-- Code point of an emitted digit character. -/
theorem digitChar_toNat (d : Nat) (h : d < 10) :
    (Char.ofNat (48 + d)).toNat = 48 + d := by
  interval_cases d <;> decide

/-- Nonzero digits are not the character `0`. -/
theorem digitChar_ne_zero (d : Nat) (h : 0 < d) (h' : d < 10) :
    Char.ofNat (48 + d) ≠ '0' := by
  interval_cases d <;> decide

/-- Appending one digit multiplies the accumulator by ten. -/
theorem foldDigits_append_singleton (l : List Char) (c : Char) :
    foldDigits (l ++ [c]) = 10 * foldDigits l + (c.toNat - 48) := by
  simp [foldDigits, List.foldl_append]
  omega

/-- The digit string of a positive number: all digits, nonzero head, and
`foldDigits` recovers the number. -/
theorem natDigitsAux_spec (fuel : Nat) :
    ∀ n, 0 < n → n ≤ fuel →
      (∀ c ∈ natDigitsAux fuel n, c.isDigit = true) ∧
      (∃ d ds, natDigitsAux fuel n = d :: ds ∧ d ≠ '0') ∧
      foldDigits (natDigitsAux fuel n) = n := by
  induction fuel with
  | zero => intro n h1 h2; omega
  | succ fuel ih =>
    intro n h1 h2
    rw [natDigitsAux, if_neg (by omega)]
    by_cases hn : n < 10
    · have hdiv : n / 10 = 0 := by omega
      have hmod : n % 10 = n := by omega
      rw [hdiv, natDigitsAux_zero, List.nil_append, hmod]
      refine ⟨?_, ⟨_, [], rfl, digitChar_ne_zero n h1 hn⟩, ?_⟩
      · intro c hc
        rw [List.mem_singleton] at hc
        subst hc
        exact digitChar_isDigit n hn
      · rw [show (Char.ofNat (48 + n) :: [] : List Char) = [] ++ [Char.ofNat (48 + n)] from rfl,
          foldDigits_append_singleton, digitChar_toNat n hn]
        simp [foldDigits]
    · have hdpos : 0 < n / 10 := by omega
      have hdle : n / 10 ≤ fuel := by omega
      obtain ⟨hall, ⟨d, ds, hds, hd0⟩, hfold⟩ := ih (n / 10) hdpos hdle
      refine ⟨?_, ⟨d, ds ++ [Char.ofNat (48 + n % 10)], by rw [hds]; rfl, hd0⟩, ?_⟩
      · intro c hc
        rcases List.mem_append.1 hc with hc | hc
        · exact hall c hc
        · rw [List.mem_singleton] at hc
          subst hc
          exact digitChar_isDigit _ (Nat.mod_lt _ (by omega))
      · rw [foldDigits_append_singleton, hfold,
          digitChar_toNat _ (Nat.mod_lt _ (by omega))]
        omega

/-- Splitting a run of satisfying elements before a non-satisfying tail. -/
theorem takeWhile_dropWhile_all (p : Char → Bool) (xs r : List Char)
    (hall : ∀ x ∈ xs, p x = true)
    (hr : ∀ c, r.head? = some c → p c = false) :
    (xs ++ r).takeWhile p = xs ∧ (xs ++ r).dropWhile p = r := by
  induction xs with
  | nil =>
    simp only [List.nil_append]
    match r with
    | [] => exact ⟨rfl, rfl⟩
    | c :: r' =>
      have := hr c rfl
      rw [List.takeWhile_cons_of_neg (by simp [this]),
        List.dropWhile_cons_of_neg (by simp [this])]
      exact ⟨rfl, rfl⟩
  | cons x xs ih =>
    have hx : p x = true := hall x (List.mem_cons_self _ _)
    obtain ⟨h1, h2⟩ := ih (fun y hy => hall y (List.mem_cons_of_mem _ hy))
    rw [List.cons_append, List.takeWhile_cons_of_pos hx,
      List.dropWhile_cons_of_pos hx, h1, h2]
    exact ⟨rfl, rfl⟩

/-- `parseNat` inverts the decimal printer, stopping at a non-digit. -/
theorem parseNat_natToStr (n : Nat) (r : List Char)
    (hr : ∀ c, r.head? = some c → c.isDigit = false) :
    parseNat (natToStrL n ++ r) = some (n, r) := by
  by_cases h0 : n = 0
  · subst h0
    rw [show natToStrL 0 = ['0'] from rfl, List.cons_append, List.nil_append,
      parseNat.eq_def]
    simp
  · rw [natToStrL, if_neg h0]
    obtain ⟨hall, ⟨d, ds, hds, hd0⟩, hfold⟩ :=
      natDigitsAux_spec (n + 1) n (by omega) (by omega)
    have hdd : d.isDigit = true := hall d (by rw [hds]; exact List.mem_cons_self _ _)
    have halld : ∀ x ∈ d :: ds, x.isDigit = true := by rw [← hds]; exact hall
    obtain ⟨htake, hdrop⟩ := takeWhile_dropWhile_all Char.isDigit (d :: ds) r halld hr
    rw [hds, List.cons_append]
    show (if d = '0' then some (0, ds ++ r)
      else if d.isDigit = true then
        some (foldDigits ((d :: (ds ++ r)).takeWhile Char.isDigit),
          (d :: (ds ++ r)).dropWhile Char.isDigit)
      else none) = some (n, r)
    rw [if_neg hd0, if_pos hdd, ← List.cons_append, htake, hdrop, ← hds, hfold]

/-- `parseNumber` takes the default branch when the input does not start
with a minus sign. -/
theorem parseNumber_of_head_ne (l : List Char) (h : l.head? ≠ some '-') :
    parseNumber l = (parseNat l).map (fun p => (Json.num (p.1 : Int), p.2)) := by
  rw [parseNumber.eq_def]
  split
  · simp at h
  · rfl

/-- `parseNumber` inverts the integer printer, stopping at a non-digit. -/
theorem parseNumber_roundtrip (n : Int) (r : List Char)
    (hr : ∀ c, r.head? = some c → c.isDigit = false) :
    parseNumber (intToStrL n ++ r) = some (.num n, r) := by
  by_cases hneg : n < 0
  · rw [intToStrL, if_pos hneg, List.cons_append,
      show ∀ l, parseNumber ('-' :: l) =
        (parseNat l).map (fun p => (Json.num (-(p.1 : Int)), p.2)) from fun _ => rfl,
      parseNat_natToStr _ _ hr]
    simp only [Option.map_some']
    have : ((-n).toNat : Int) = -n := Int.toNat_of_nonneg (by omega)
    rw [this]
    simp
  · rw [intToStrL, if_neg hneg]
    have hhead : (natToStrL n.toNat ++ r).head? ≠ some '-' := by
      by_cases h0 : n.toNat = 0
      · rw [h0]
        intro hcontra
        simp [natToStrL] at hcontra
      · rw [natToStrL, if_neg h0]
        obtain ⟨hall, ⟨d, ds, hds, _⟩, _⟩ :=
          natDigitsAux_spec (n.toNat + 1) n.toNat (by omega) (by omega)
        rw [hds, List.cons_append]
        intro hcontra
        rw [List.head?_cons, Option.some_inj] at hcontra
        have := hall d (by rw [hds]; exact List.mem_cons_self _ _)
        rw [hcontra] at this
        exact absurd this (by decide)
    rw [parseNumber_of_head_ne _ hhead, parseNat_natToStr _ _ hr]
    simp only [Option.map_some']
    rw [Int.toNat_of_nonneg (by omega)]

/-- Digits and the minus sign are not JSON structural heads. -/
theorem digit_or_minus_facts (d : Char) (h : d.isDigit = true ∨ d = '-') :
    d ≠ '{' ∧ d ≠ '[' ∧ d ≠ '"' ∧ d ≠ 't' ∧ d ≠ 'f' ∧ d ≠ 'n' := by
  rcases h with h | h
  · refine ⟨?_, ?_, ?_, ?_, ?_, ?_⟩ <;>
      (intro he; subst he; exact absurd h (by decide))
  · subst h
    exact ⟨by decide, by decide, by decide, by decide, by decide, by decide⟩

/-- The integer printer starts with a digit or a minus sign. -/
theorem intToStrL_head (n : Int) :
    ∃ d t, intToStrL n = d :: t ∧ (d.isDigit = true ∨ d = '-') := by
  by_cases hneg : n < 0
  · exact ⟨'-', _, by rw [intToStrL, if_pos hneg], Or.inr rfl⟩
  · rw [intToStrL, if_neg hneg]
    by_cases h0 : n.toNat = 0
    · rw [h0]
      exact ⟨'0', [], rfl, Or.inl (by decide)⟩
    · rw [natToStrL, if_neg h0]
      obtain ⟨hall, ⟨d, ds, hds, _⟩, _⟩ :=
        natDigitsAux_spec (n.toNat + 1) n.toNat (by omega) (by omega)
      exact ⟨d, ds, hds,
        Or.inl (hall d (by rw [hds]; exact List.mem_cons_self _ _))⟩

/-- With a numeric head, `parseValue` delegates to `parseNumber`. -/
theorem parseValue_numeric_head (fuel : Nat) (d : Char) (t : List Char)
    (h : d.isDigit = true ∨ d = '-') :
    parseValue (fuel + 1) (d :: t) = parseNumber (d :: t) := by
  obtain ⟨h1, h2, h3, h4, h5, h6⟩ := digit_or_minus_facts d h
  rw [parseValue.eq_def]
  simp [h1, h2, h3, h4, h5, h6]

/-- `parseValue` parses one serialized scalar and stops at the separator. -/
theorem parseValue_scalar (v : Json) (hv : isScalar v = true) (fuel : Nat)
    (r : List Char) (hr : ∀ c, r.head? = some c → c.isDigit = false) :
    parseValue (fuel + 1) (dumpVal v ++ r) = some (v, r) := by
  cases v with
  | null => simp [isScalar] at hv
  | arr xs => simp [isScalar] at hv
  | obj kvs => simp [isScalar] at hv
  | num n =>
    obtain ⟨d, t, hd, hcase⟩ := intToStrL_head n
    rw [show dumpVal (.num n) = intToStrL n from rfl, hd, List.cons_append,
      parseValue_numeric_head fuel d _ hcase, ← List.cons_append, ← hd]
    exact parseNumber_roundtrip n r hr
  | str s =>
    rw [show dumpVal (.str s) = dumpStrL s.data from rfl, dumpStrL]
    simp only [List.cons_append, List.append_assoc, List.singleton_append]
    rw [parseValue.eq_def]
    simp [parseStringBody_roundtrip]
  | bool b =>
    cases b <;>
      (simp only [dumpVal, List.cons_append, List.nil_append]
       rw [parseValue.eq_def]
       simp [parseTrueLit, parseFalseLit])

/-- Digits are neither JSON whitespace nor closing delimiters. -/
theorem digit_not_closing (d : Char) (h : d.isDigit = true) :
    isJsonWs d = false ∧ d ≠ ']' ∧ d ≠ '}' := by
  refine ⟨?_, ?_, ?_⟩
  · cases hw : isJsonWs d
    · rfl
    · exfalso
      simp only [isJsonWs, Bool.or_eq_true, decide_eq_true_eq] at hw
      rcases hw with ((h1 | h1) | h1) | h1 <;> (subst h1; exact absurd h (by decide))
  · intro he; subst he; exact absurd h (by decide)
  · intro he; subst he; exact absurd h (by decide)

/-- Every serialized value starts with a non-whitespace, non-closing
character. -/
theorem dumpVal_head (v : Json) :
    ∃ c t, dumpVal v = c :: t ∧ isJsonWs c = false ∧ c ≠ ']' ∧ c ≠ '}' := by
  cases v with
  | null => exact ⟨'n', _, rfl, by decide, by decide, by decide⟩
  | bool b =>
    cases b
    · exact ⟨'f', _, rfl, by decide, by decide, by decide⟩
    · exact ⟨'t', _, rfl, by decide, by decide, by decide⟩
  | str s => exact ⟨'"', _, rfl, by decide, by decide, by decide⟩
  | arr xs => exact ⟨'[', _, rfl, by decide, by decide, by decide⟩
  | obj kvs => exact ⟨'{', _, rfl, by decide, by decide, by decide⟩
  | num n =>
    obtain ⟨d, t, hd, hcase⟩ := intToStrL_head n
    refine ⟨d, t, by rw [show dumpVal (.num n) = intToStrL n from rfl, hd], ?_, ?_, ?_⟩
    · rcases hcase with h | h
      · exact (digit_not_closing d h).1
      · subst h; decide
    · rcases hcase with h | h
      · exact (digit_not_closing d h).2.1
      · subst h; decide
    · rcases hcase with h | h
      · exact (digit_not_closing d h).2.2
      · subst h; decide

/-- `skipWs` is the identity on a non-whitespace head. -/
theorem skipWs_not_ws (c : Char) (t : List Char) (hc : isJsonWs c = false) :
    skipWs (c :: t) = c :: t := by
  rw [skipWs, List.dropWhile_cons_of_neg (by simp [hc])]

/-- `skipWs` drops a single leading space before a non-whitespace head. -/
theorem skipWs_space (l : List Char) (c : Char) (t : List Char)
    (h : l = c :: t) (hc : isJsonWs c = false) : skipWs (' ' :: l) = l := by
  rw [skipWs, List.dropWhile_cons_of_pos (by decide), h,
    List.dropWhile_cons_of_neg (by simp [hc])]

/-- Serialized items of a non-empty list start with the first value's
head. -/
theorem dumpItems_head (x : Json) (xs : List Json) :
    ∃ c t, dumpItems (x :: xs) = c :: t ∧ isJsonWs c = false ∧ c ≠ ']' ∧ c ≠ '}' := by
  obtain ⟨c, t, hd, h1, h2, h3⟩ := dumpVal_head x
  cases xs with
  | nil => exact ⟨c, t, by rw [show dumpItems [x] = dumpVal x from rfl, hd], h1, h2, h3⟩
  | cons y ys =>
    exact ⟨c, t ++ ',' :: ' ' :: dumpItems (y :: ys),
      by rw [show dumpItems (x :: y :: ys) = dumpVal x ++ ',' :: ' ' :: dumpItems (y :: ys)
          from rfl, hd]; rfl, h1, h2, h3⟩

/-- The boundary condition for numbers at a closing or separator
character. -/
theorem sep_not_digit (c0 : Char) (h : c0.isDigit = false) (r : List Char) :
    ∀ c, (c0 :: r).head? = some c → c.isDigit = false := by
  intro c hc
  rw [List.head?_cons, Option.some_inj] at hc
  subst hc
  exact h

/-- One unfolding step of `parseItems`. -/
theorem parseItems_succ (fuel : Nat) (l : List Char) :
    parseItems (fuel + 1) l =
      match parseValue fuel l with
      | none => none
      | some (v, r1) =>
        if (skipWs r1).head? = some ',' then
          (parseItems fuel (skipWs (skipWs r1).tail)).map (fun p => (v :: p.1, p.2))
        else if (skipWs r1).head? = some ']' then some ([v], (skipWs r1).tail)
        else none := by
  rw [parseItems.eq_def]

/-- One unfolding step of `parseMembers`. -/
theorem parseMembers_succ (fuel : Nat) (l : List Char) :
    parseMembers (fuel + 1) l =
      (if l.head? = some '"' then
        match parseStringBody l.tail with
        | none => none
        | some (k, r1) =>
          if (skipWs r1).head? = some ':' then
            match parseValue fuel (skipWs (skipWs r1).tail) with
            | none => none
            | some (v, r3) =>
              if (skipWs r3).head? = some ',' then
                (parseMembers fuel (skipWs (skipWs r3).tail)).map
                  (fun p => ((⟨k⟩, v) :: p.1, p.2))
              else if (skipWs r3).head? = some '}' then
                some ([(⟨k⟩, v)], (skipWs r3).tail)
              else none
          else none
      else none) := by
  rw [parseMembers.eq_def]

/-- Serialized members of a non-empty list start with a quote. -/
theorem dumpMembers_head (k : String) (v : Json) (kvs : List (String × Json)) :
    ∃ t, dumpMembers ((k, v) :: kvs) = '"' :: t := by
  cases kvs with
  | nil => exact ⟨_, rfl⟩
  | cons m rest => exact ⟨_, rfl⟩

/-- String literals serialize to at least two characters. -/
theorem dumpStrL_length_ge (s : List Char) : 2 ≤ (dumpStrL s).length := by
  simp [dumpStrL]

/-- Serialized values are non-empty. -/
theorem dumpVal_length_pos (v : Json) : 1 ≤ (dumpVal v).length := by
  obtain ⟨c, t, hd, _, _, _⟩ := dumpVal_head v
  rw [hd]
  simp

/-- Serialized items are at least as long as the item count. -/
theorem dumpItems_length_ge (xs : List Json) :
    xs.length ≤ (dumpItems xs).length := by
  induction xs with
  | nil => simp [dumpItems]
  | cons x xs ih =>
    cases xs with
    | nil => simpa [dumpItems] using dumpVal_length_pos x
    | cons y ys =>
      rw [show dumpItems (x :: y :: ys) =
          dumpVal x ++ ',' :: ' ' :: dumpItems (y :: ys) from rfl]
      have := dumpVal_length_pos x
      simp only [List.length_append, List.length_cons] at *
      omega

/-- Serialized members are at least as long as the member count. -/
theorem dumpMembers_length_ge (kvs : List (String × Json)) :
    kvs.length ≤ (dumpMembers kvs).length := by
  induction kvs with
  | nil => simp [dumpMembers]
  | cons kv kvs ih =>
    obtain ⟨k, v⟩ := kv
    have h1 := dumpStrL_length_ge k.data
    have h2 := dumpVal_length_pos v
    cases kvs with
    | nil =>
      rw [show dumpMembers [(k, v)] =
          dumpStrL k.data ++ ':' :: ' ' :: dumpVal v from rfl]
      simp only [List.length_append, List.length_cons, List.length_nil]
      omega
    | cons m rest =>
      have ihm := ih
      rw [show dumpMembers ((k, v) :: m :: rest) =
          dumpStrL k.data ++ ':' :: ' ' :: dumpVal v ++
            ',' :: ' ' :: dumpMembers (m :: rest) from rfl]
      simp only [List.length_append, List.length_cons] at ihm ⊢
      omega

/-- With a parser for every serialized value of length at most `n`,
`parseItems` parses any serialized item list of length at most `n` through
the closing bracket. -/
theorem parseItems_dump (n : Nat)
    (hval : ∀ v, (dumpVal v).length ≤ n → ∀ fuel, (dumpVal v).length ≤ fuel →
      ∀ r, (∀ c, r.head? = some c → c.isDigit = false) →
      parseValue fuel (dumpVal v ++ r) = some (v, r)) :
    ∀ xs, xs ≠ [] → (dumpItems xs).length ≤ n →
    ∀ fuel, (dumpItems xs).length + 1 ≤ fuel → ∀ r,
      parseItems fuel (dumpItems xs ++ ']' :: r) = some (xs, r) := by
  intro xs
  induction xs with
  | nil => exact fun hne => absurd rfl hne
  | cons x xs ih =>
    intro _ hn fuel hfuel r
    obtain ⟨g, rfl⟩ : ∃ g, fuel = g + 1 := ⟨fuel - 1, by omega⟩
    have hg : (dumpItems (x :: xs)).length ≤ g := by omega
    rw [parseItems_succ]
    cases xs with
    | nil =>
      have hL : dumpItems [x] = dumpVal x := rfl
      rw [hL] at hn hg ⊢
      rw [hval x hn g hg (']' :: r) (sep_not_digit ']' (by decide) r)]
      simp [skipWs_not_ws ']' r (by decide)]
    | cons y ys =>
      have hL : dumpItems (x :: y :: ys) =
          dumpVal x ++ ',' :: ' ' :: dumpItems (y :: ys) := rfl
      have hlen : (dumpItems (x :: y :: ys)).length =
          (dumpVal x).length + 2 + (dumpItems (y :: ys)).length := by
        rw [hL]
        simp only [List.length_append, List.length_cons]
        omega
      have hpos := dumpVal_length_pos x
      rw [hL]
      simp only [List.append_assoc, List.cons_append]
      rw [hval x (by omega) g (by omega) _ (sep_not_digit ',' (by decide) _)]
      obtain ⟨c, t, hd, h1, _, _⟩ := dumpItems_head y ys
      have hsp : skipWs (' ' :: (dumpItems (y :: ys) ++ ']' :: r)) =
          dumpItems (y :: ys) ++ ']' :: r :=
        skipWs_space _ c (t ++ ']' :: r) (by rw [hd]; rfl) h1
      have hih := ih (by simp) (by omega) g (by omega) r
      simp [skipWs_not_ws ',' _ (by decide), hsp, hih]

/-- With a parser for every serialized value of length at most `n`,
`parseMembers` parses any serialized member list of length at most `n`
through the closing brace. -/
theorem parseMembers_dump (n : Nat)
    (hval : ∀ v, (dumpVal v).length ≤ n → ∀ fuel, (dumpVal v).length ≤ fuel →
      ∀ r, (∀ c, r.head? = some c → c.isDigit = false) →
      parseValue fuel (dumpVal v ++ r) = some (v, r)) :
    ∀ kvs, kvs ≠ [] → (dumpMembers kvs).length ≤ n →
    ∀ fuel, (dumpMembers kvs).length + 1 ≤ fuel → ∀ r,
      parseMembers fuel (dumpMembers kvs ++ '}' :: r) = some (kvs, r) := by
  intro kvs
  induction kvs with
  | nil => exact fun hne => absurd rfl hne
  | cons kv kvs ih =>
    intro _ hn fuel hfuel r
    obtain ⟨k, v⟩ := kv
    have hstr := dumpStrL_length_ge k.data
    have hvpos := dumpVal_length_pos v
    obtain ⟨g, rfl⟩ : ∃ g, fuel = g + 1 := ⟨fuel - 1, by omega⟩
    have hg : (dumpMembers ((k, v) :: kvs)).length ≤ g := by omega
    rw [parseMembers_succ]
    obtain ⟨c, t, hd, h1, _, _⟩ := dumpVal_head v
    cases kvs with
    | nil =>
      have hL : dumpMembers [(k, v)] =
          dumpStrL k.data ++ ':' :: ' ' :: dumpVal v := rfl
      have hlen : (dumpMembers [(k, v)]).length =
          (dumpStrL k.data).length + 2 + (dumpVal v).length := by
        rw [hL]
        simp only [List.length_append, List.length_cons]
        omega
      rw [hL, dumpStrL]
      simp only [List.cons_append, List.append_assoc, List.singleton_append,
        List.nil_append, List.head?_cons, List.tail_cons]
      rw [if_pos trivial, parseStringBody_roundtrip]
      have hsp : skipWs (' ' :: (dumpVal v ++ '}' :: r)) = dumpVal v ++ '}' :: r :=
        skipWs_space _ c (t ++ '}' :: r) (by rw [hd]; rfl) h1
      have hv := hval v (by omega) g (by omega) ('}' :: r)
        (sep_not_digit '}' (by decide) r)
      simp [skipWs_not_ws ':' _ (by decide), hsp, hv,
        skipWs_not_ws '}' _ (by decide)]
    | cons m rest =>
      have hL : dumpMembers ((k, v) :: m :: rest) =
          dumpStrL k.data ++ ':' :: ' ' :: dumpVal v ++
            ',' :: ' ' :: dumpMembers (m :: rest) := rfl
      have hlen : (dumpMembers ((k, v) :: m :: rest)).length =
          (dumpStrL k.data).length + 2 + (dumpVal v).length + 2 +
            (dumpMembers (m :: rest)).length := by
        rw [hL]
        simp only [List.length_append, List.length_cons]
        omega
      rw [hL, dumpStrL]
      simp only [List.cons_append, List.append_assoc, List.singleton_append,
        List.nil_append, List.head?_cons, List.tail_cons]
      rw [if_pos trivial, parseStringBody_roundtrip]
      have hsp : skipWs (' ' :: (dumpVal v ++
          ',' :: ' ' :: (dumpMembers (m :: rest) ++ '}' :: r))) =
          dumpVal v ++ ',' :: ' ' :: (dumpMembers (m :: rest) ++ '}' :: r) :=
        skipWs_space _ c _ (by rw [hd]; rfl) h1
      have hv := hval v (by omega) g (by omega)
        (',' :: ' ' :: (dumpMembers (m :: rest) ++ '}' :: r))
        (sep_not_digit ',' (by decide) _)
      obtain ⟨m1, m2⟩ := m
      obtain ⟨t2, hd2⟩ := dumpMembers_head m1 m2 rest
      have hsp2 : skipWs (' ' :: (dumpMembers ((m1, m2) :: rest) ++ '}' :: r)) =
          dumpMembers ((m1, m2) :: rest) ++ '}' :: r :=
        skipWs_space _ '"' (t2 ++ '}' :: r) (by rw [hd2]; rfl) (by decide)
      have hih := ih (by simp) (by omega) g (by omega) r
      simp [skipWs_not_ws ':' _ (by decide), hsp, hv,
        skipWs_not_ws ',' _ (by decide), hsp2, hih]

/-- `parseValue` inverts `dumpVal` on every value (arbitrary nesting),
stopping at the separator: strong induction on the serialized length. -/
theorem parseValue_dump : ∀ n (v : Json), (dumpVal v).length ≤ n →
    ∀ fuel, (dumpVal v).length ≤ fuel →
    ∀ r, (∀ c, r.head? = some c → c.isDigit = false) →
    parseValue fuel (dumpVal v ++ r) = some (v, r) := by
  intro n
  induction n with
  | zero =>
    intro v hv
    have := dumpVal_length_pos v
    omega
  | succ n ih =>
    intro v hv fuel hfuel r hr
    have hpos := dumpVal_length_pos v
    obtain ⟨g, rfl⟩ : ∃ g, fuel = g + 1 := ⟨fuel - 1, by omega⟩
    cases v with
    | null =>
      have hD : dumpVal .null = 'n' :: 'u' :: 'l' :: 'l' :: [] := rfl
      rw [hD]
      simp only [List.cons_append, List.nil_append]
      rw [parseValue.eq_def]
      simp [parseNullLit]
    | bool b => exact parseValue_scalar (.bool b) rfl g r hr
    | num m => exact parseValue_scalar (.num m) rfl g r hr
    | str s => exact parseValue_scalar (.str s) rfl g r hr
    | arr xs =>
      rw [show dumpVal (.arr xs) = '[' :: (dumpItems xs ++ [']']) from rfl]
      simp only [List.cons_append, List.append_assoc, List.singleton_append]
      rw [parseValue.eq_def]
      cases xs with
      | nil =>
        rw [show dumpItems ([] : List Json) = [] from rfl]
        simp [skipWs_not_ws ']' r (by decide)]
      | cons y ys =>
        obtain ⟨c, t, hd, h1, h2, _⟩ := dumpItems_head y ys
        have hsk : skipWs (dumpItems (y :: ys) ++ ']' :: r) =
            dumpItems (y :: ys) ++ ']' :: r := by
          rw [hd, List.cons_append]
          exact skipWs_not_ws c _ h1
        have hlen : (dumpVal (.arr (y :: ys))).length =
            (dumpItems (y :: ys)).length + 2 := by
          rw [show dumpVal (.arr (y :: ys)) =
            '[' :: (dumpItems (y :: ys) ++ [']']) from rfl]
          simp only [List.length_cons, List.length_append, List.length_nil]
        have hitems := parseItems_dump n ih (y :: ys) (by simp) (by omega) g
          (by omega) r
        have hne' : (skipWs (dumpItems (y :: ys) ++ ']' :: r)).head? ≠ some ']' := by
          rw [hsk, hd, List.cons_append, List.head?_cons]
          simp [h2]
        simp [hsk, hne', hitems]
        exact ⟨by rw [hd]; simp [h2], by rw [hd]; simp⟩
    | obj kvs =>
      rw [show dumpVal (.obj kvs) = '{' :: (dumpMembers kvs ++ ['}']) from rfl]
      simp only [List.cons_append, List.append_assoc, List.singleton_append]
      rw [parseValue.eq_def]
      cases kvs with
      | nil =>
        rw [show dumpMembers ([] : List (String × Json)) = [] from rfl]
        simp [skipWs_not_ws '}' r (by decide)]
      | cons m rest =>
        obtain ⟨m1, m2⟩ := m
        obtain ⟨t2, hd2⟩ := dumpMembers_head m1 m2 rest
        have hsk : skipWs (dumpMembers ((m1, m2) :: rest) ++ '}' :: r) =
            dumpMembers ((m1, m2) :: rest) ++ '}' :: r := by
          rw [hd2, List.cons_append]
          exact skipWs_not_ws '"' _ (by decide)
        have hlen : (dumpVal (.obj ((m1, m2) :: rest))).length =
            (dumpMembers ((m1, m2) :: rest)).length + 2 := by
          rw [show dumpVal (.obj ((m1, m2) :: rest)) =
            '{' :: (dumpMembers ((m1, m2) :: rest) ++ ['}']) from rfl]
          simp only [List.length_cons, List.length_append, List.length_nil]
        have hmem := parseMembers_dump n ih ((m1, m2) :: rest) (by simp)
          (by omega) g (by omega) r
        have hne' : (skipWs (dumpMembers ((m1, m2) :: rest) ++ '}' :: r)).head? ≠
            some '}' := by
          rw [hsk, hd2, List.cons_append, List.head?_cons]
          simp
        simp [hsk, hne', hmem]
        exact ⟨by rw [hd2]; simp, by rw [hd2]; simp⟩

/-- `json.loads` inverts `json.dumps` on every dict. -/
theorem json_loads_dumps (kvs : List (String × Json)) :
    json_loads (json_dumps (.obj kvs)) = .ok (.obj kvs) := by
  unfold json_loads
  have hdata : (json_dumps (.obj kvs)).data = dumpVal (.obj kvs) := rfl
  rw [hdata]
  have hskip : skipWs (dumpVal (.obj kvs)) = dumpVal (.obj kvs) := by
    rw [show dumpVal (.obj kvs) = '{' :: (dumpMembers kvs ++ ['}']) from rfl]
    exact skipWs_not_ws '{' _ (by decide)
  rw [hskip]
  have hp := parseValue_dump (dumpVal (.obj kvs)).length (.obj kvs) le_rfl
    ((dumpVal (.obj kvs)).length + 1) (by omega) []
    (by intro c hc; simp at hc)
  rw [List.append_nil] at hp
  rw [hp]
  simp [skipWs]

/-- The replacement scan is the identity when the pattern never occurs. -/
theorem replaceAux_no_occ (pat rep : List Char) :
    ∀ fuel s, hasSubstr s pat = false → replaceAux pat rep fuel s = s := by
  intro fuel
  induction fuel with
  | zero => intro s _; rfl
  | succ fuel ih =>
    intro s h
    match s with
    | [] => rfl
    | c :: rest =>
      rw [hasSubstr] at h
      simp only [Bool.or_eq_false_iff] at h
      rw [replaceAux, if_neg (by simp [h.1]), ih rest h.2]

/-- `str.replace` is the identity when the pattern never occurs. -/
theorem pyReplace_no_occ (s pat rep : String) (hpat : pat.data.isEmpty = false)
    (h : hasSubstr s.data pat.data = false) : pyReplace s pat rep = s := by
  unfold pyReplace
  rw [if_neg (by simp [hpat]), replaceAux_no_occ pat.data rep.data _ s.data h]

/-- An occurrence of a longer pattern contains its prefix. -/
theorem hasSubstr_of_append (s p q : List Char)
    (h : hasSubstr s (p ++ q) = true) : hasSubstr s p = true := by
  induction s with
  | nil =>
    rw [hasSubstr] at h ⊢
    simp only [List.isEmpty_iff] at h ⊢
    exact (List.append_eq_nil.1 h).1
  | cons c rest ih =>
    rw [hasSubstr] at h ⊢
    simp only [Bool.or_eq_true] at h ⊢
    rcases h with h | h
    · left
      rw [List.isPrefixOf_iff_prefix] at h ⊢
      exact (List.prefix_append p q).trans h
    · exact Or.inr (ih h)

/-- Stripping does nothing between two non-whitespace delimiters. -/
theorem stripL_sandwich (c d : Char) (mid : List Char)
    (hc : isPyWs c = false) (hd : isPyWs d = false) :
    stripL (c :: (mid ++ [d])) = c :: (mid ++ [d]) := by
  rw [stripL, lstripL, List.dropWhile_cons_of_neg (by simp [hc]), rstripL]
  have hrev : (c :: (mid ++ [d])).reverse = d :: (mid.reverse ++ [c]) := by simp
  rw [hrev, List.dropWhile_cons_of_neg (by simp [hd]), ← hrev, List.reverse_reverse]

/-- The brace-span regex is the identity on a brace-delimited document. -/
theorem braceSpanL_sandwich (mid : List Char) :
    braceSpanL ('{' :: (mid ++ ['}'])) = '{' :: (mid ++ ['}']) := by
  unfold braceSpanL
  have h1 : List.findIdx? (· = '{') ('{' :: (mid ++ ['}'])) = some 0 := by
    simp [List.findIdx?_cons]
  have h2 : rfindIdx ('{' :: (mid ++ ['}'])) '}' = some (mid.length + 1) := by
    rw [rfindIdx]
    have hrev : ('{' :: (mid ++ ['}'])).reverse = '}' :: (mid.reverse ++ ['{']) := by
      simp
    rw [hrev]
    simp [List.findIdx?_cons]
  rw [h1, h2]
  simp only [Nat.zero_lt_succ, if_pos, List.drop_zero, Nat.sub_zero]
  rw [show mid.length + 1 + 1 = ('{' :: (mid ++ ['}'])).length from by simp]
  exact List.take_length _

/-- `clean_ai_json` parses a fence-free serialized dict exactly. -/
theorem clean_ai_json_dumps (kvs : List (String × Json))
    (hfence : hasSubstr (json_dumps (.obj kvs)).data fenceMarker = false) :
    clean_ai_json (json_dumps (.obj kvs)) = .ok (.obj kvs) := by
  have hjson : hasSubstr (json_dumps (.obj kvs)).data ("```json".data) = false := by
    cases hx : hasSubstr (json_dumps (.obj kvs)).data ("```json".data)
    · rfl
    · have hpre := hasSubstr_of_append (json_dumps (.obj kvs)).data fenceMarker
        ("json".data)
        (by rw [show fenceMarker ++ "json".data = "```json".data from rfl]; exact hx)
      rw [hfence] at hpre
      exact absurd hpre (by decide)
  have h1 : pyReplace (json_dumps (.obj kvs)) "```json" "" = json_dumps (.obj kvs) :=
    pyReplace_no_occ _ _ _ (by decide) hjson
  have h2 : pyReplace (json_dumps (.obj kvs)) "```" "" = json_dumps (.obj kvs) :=
    pyReplace_no_occ _ _ _ (by decide)
      (by rw [show ("```" : String).data = fenceMarker from rfl]; exact hfence)
  have h3 : pyStrip (json_dumps (.obj kvs)) = json_dumps (.obj kvs) := by
    unfold pyStrip
    rw [show (json_dumps (.obj kvs)).data = '{' :: (dumpMembers kvs ++ ['}'])
      from rfl, stripL_sandwich '{' '}' _ (by decide) (by decide)]
    rfl
  simp only [clean_ai_json]
  rw [h1, h2, h3,
    show (json_dumps (Json.obj kvs)).data = '{' :: (dumpMembers kvs ++ ['}'])
      from rfl, braceSpanL_sandwich,
    show (⟨'{' :: (dumpMembers kvs ++ ['}'])⟩ : String) = json_dumps (Json.obj kvs)
      from rfl,
    json_loads_dumps kvs]

/-- `pyStrip` of a serialized dict is the dict text, hence non-empty. -/
theorem pyStrip_dumps_ne (kvs : List (String × Json)) :
    pyStrip (json_dumps (.obj kvs)) ≠ "" := by
  have h3 : pyStrip (json_dumps (.obj kvs)) = json_dumps (.obj kvs) := by
    unfold pyStrip
    rw [show (json_dumps (.obj kvs)).data = '{' :: (dumpMembers kvs ++ ['}'])
      from rfl, stripL_sandwich '{' '}' _ (by decide) (by decide)]
    rfl
  rw [h3]
  intro hcontra
  have hd := congrArg String.data hcontra
  rw [show (json_dumps (Json.obj kvs)).data = '{' :: (dumpMembers kvs ++ ['}'])
    from rfl] at hd
  simp at hd

/-- C4 counterexample: the simple dict whose value is the fence marker text
round-trips to a different dict — `clean_ai_json` deletes the backticks from
the serialization before parsing. -/
theorem C4_fence_collision_counterexample :
    isSimpleDict (Json.obj [("a", Json.str "```")]) = true ∧
    parseGuaranteed (json_dumps (Json.obj [("a", Json.str "```")])) =
      Json.obj [("a", Json.str "")] ∧
    Json.obj [("a", Json.str "")] ≠ Json.obj [("a", Json.str "```")] := by
  refine ⟨rfl, rfl, ?_⟩
  intro h
  simp at h

/-- C4 amended: `parseGuaranteed` inverts strict JSON serialization on every
dict — values may be strings, numbers, booleans, null, and arbitrarily
nested arrays and dicts — whose serialization does not contain three
consecutive backticks (the fence marker that `clean_ai_json` deletes before
parsing). -/
theorem C4_roundtrip_without_fences (kvs : List (String × Json))
    (hfence : hasSubstr (json_dumps (.obj kvs)).data fenceMarker = false) :
    parseGuaranteed (json_dumps (.obj kvs)) = .obj kvs :=
  parseGuaranteed_ok_obj _ (pyStrip_dumps_ne kvs) kvs
    (clean_ai_json_dumps kvs hfence)

/-- Witness for C4 at a concrete dict with a number, a nested array of mixed
values including null and an empty dict, and a nested string dict. -/
theorem C4_roundtrip_without_fences_witness :
    parseGuaranteed (json_dumps (Json.obj [("a", Json.num 1),
        ("b", Json.arr [Json.num 1, Json.arr [Json.str "x", Json.null],
          Json.obj [("n", Json.obj [])]]),
        ("c", Json.obj [("k", Json.str "v")])])) =
      Json.obj [("a", Json.num 1),
        ("b", Json.arr [Json.num 1, Json.arr [Json.str "x", Json.null],
          Json.obj [("n", Json.obj [])]]),
        ("c", Json.obj [("k", Json.str "v")])] :=
  C4_roundtrip_without_fences _ rfl

/-! ### C8 helper lemmas -/

/-- `Char.ofNat` of a valid scalar value evaluates back to that value. -/
theorem char_toNat_ofNat_lt (n : Nat) (h : n < 55296) :
    (Char.ofNat n).toNat = n := by
  rw [Char.ofNat, dif_pos (Or.inl h)]
  rfl

/-- `toLower` never turns a different character into a left angle bracket. -/
theorem toLower_ne_lt (c : Char) (h : c ≠ '<') : c.toLower ≠ '<' := by
  intro he
  apply h
  simp only [Char.toLower] at he
  split at he
  · exfalso
    have h2 := congrArg Char.toNat he
    rw [char_toNat_ofNat_lt _ (by omega)] at h2
    have h3 : ('<' : Char).toNat = 60 := rfl
    omega
  · exact he

theorem startsWithCI_lt_head_false (pt : List Char) (c : Char) (hc : c ≠ '<')
    (xs : List Char) : startsWithCI ('<' :: pt) (c :: xs) = false := by
  have h2 : decide ('<' = c.toLower) = false :=
    decide_eq_false (fun h => toLower_ne_lt c hc h.symm)
  simp only [startsWithCI, h2, Bool.false_and]

/-- On a list with no left angle bracket, no pattern starting with one is
found. -/
theorem splitFirstCI_none_of_nolt (pt l : List Char)
    (h : ∀ a ∈ l, a ≠ '<') : splitFirstCI ('<' :: pt) l = none := by
  induction l with
  | nil => simp [splitFirstCI]
  | cons c rest ih =>
    rw [splitFirstCI,
      if_neg (by rw [startsWithCI_lt_head_false pt c (h c (List.mem_cons_self c rest)) rest]; exact Bool.false_ne_true),
      ih (fun a ha => h a (List.mem_cons_of_mem c ha))]
    rfl

/-- Searching for a pattern starting with a left angle bracket skips over a
prefix containing none. -/
theorem splitFirstCI_append_nolt (pt pre rest : List Char)
    (hpre : ∀ a ∈ pre, a ≠ '<') :
    splitFirstCI ('<' :: pt) (pre ++ rest) =
      (splitFirstCI ('<' :: pt) rest).map (fun q => (pre ++ q.1, q.2)) := by
  induction pre with
  | nil =>
    cases h : splitFirstCI ('<' :: pt) rest with
    | none => simp [h]
    | some q => simp [h]
  | cons c pre' ih =>
    rw [List.cons_append, splitFirstCI,
      if_neg (by rw [startsWithCI_lt_head_false pt c (hpre c (List.mem_cons_self c pre')) (pre' ++ rest)]; exact Bool.false_ne_true),
      ih (fun a ha => hpre a (List.mem_cons_of_mem c ha))]
    cases h : splitFirstCI ('<' :: pt) rest with
    | none => rfl
    | some q => rfl

theorem stripTagBlocks_nolt (pt ct : List Char) (fuel : Nat) (l : List Char)
    (h : ∀ a ∈ l, a ≠ '<') : stripTagBlocks ('<' :: pt) ct fuel l = l := by
  cases fuel with
  | zero => rfl
  | succ fuel => rw [stripTagBlocks, splitFirstCI_none_of_nolt pt l h]

theorem stripDelimited_nolt (pt ct : List Char) (fuel : Nat) (l : List Char)
    (h : ∀ a ∈ l, a ≠ '<') : stripDelimited ('<' :: pt) ct fuel l = l := by
  cases fuel with
  | zero => rfl
  | succ fuel => rw [stripDelimited, splitFirstCI_none_of_nolt pt l h]

/-- The script-stripping pass deletes a whole simple script element when the
surrounding text and the script body contain no left angle bracket. -/
theorem stripTagBlocks_script (pre s post : List Char)
    (hpre : ∀ a ∈ pre, a ≠ '<') (hs : ∀ a ∈ s, a ≠ '<')
    (hpost : ∀ a ∈ post, a ≠ '<') (fuel : Nat) :
    stripTagBlocks "<script".data "</script>".data (fuel + 1)
        (pre ++ "<script>".data ++ s ++ "</script>".data ++ post) =
      pre ++ post := by
  have hopen : "<script".data = '<' :: "script".data := rfl
  have hclose : "</script>".data = '<' :: "/script>".data := rfl
  have hsplit : pre ++ "<script>".data ++ s ++ "</script>".data ++ post =
      pre ++ ("<script>".data ++ s ++ "</script>".data ++ post) := by
    simp [List.append_assoc]
  have hjunc : splitFirstCI ('<' :: "script".data)
      ("<script>".data ++ s ++ "</script>".data ++ post) =
      some ([], '>' :: (s ++ "</script>".data ++ post)) := rfl
  have h1 : splitFirstCI "<script".data
      (pre ++ "<script>".data ++ s ++ "</script>".data ++ post) =
      some (pre, '>' :: (s ++ "</script>".data ++ post)) := by
    rw [hsplit, hopen, splitFirstCI_append_nolt _ pre _ hpre, hjunc]
    simp
  have h2 : splitFirstCI ['>'] ('>' :: (s ++ "</script>".data ++ post)) =
      some ([], s ++ "</script>".data ++ post) := rfl
  have hjunc2 : splitFirstCI ('<' :: "/script>".data)
      ("</script>".data ++ post) = some ([], post) := rfl
  have h3 : splitFirstCI "</script>".data (s ++ "</script>".data ++ post) =
      some (s, post) := by
    rw [List.append_assoc, hclose, splitFirstCI_append_nolt _ s _ hs, hjunc2]
    simp
  rw [stripTagBlocks]
  simp only [h1, h2, h3]
  rw [show stripTagBlocks "<script".data "</script>".data fuel post = post from
    stripTagBlocks_nolt "script".data "</script>".data fuel post hpost]

/-- Every character of `collapseWs`'s output is an input character or a
space. -/
theorem mem_collapseWs (fuel : Nat) (l : List Char) (a : Char)
    (h : a ∈ collapseWs fuel l) : a ∈ l ∨ a = ' ' := by
  induction fuel generalizing l with
  | zero => exact Or.inl h
  | succ fuel ih =>
    cases l with
    | nil => simp [collapseWs] at h
    | cons c rest =>
      rw [collapseWs] at h
      by_cases hc : isPyWs c = true
      · rw [if_pos hc] at h
        rcases List.mem_cons.mp h with h | h
        · exact Or.inr h
        · rcases ih _ h with h | h
          · exact Or.inl (List.mem_cons_of_mem c
              ((List.dropWhile_sublist isPyWs).mem h))
          · exact Or.inr h
      · rw [if_neg hc] at h
        rcases List.mem_cons.mp h with h | h
        · exact Or.inl (h ▸ List.mem_cons_self c rest)
        · rcases ih _ h with h | h
          · exact Or.inl (List.mem_cons_of_mem c h)
          · exact Or.inr h

/-- Every character of `stripDataAttrs`'s output is an input character. -/
theorem mem_stripDataAttrs (fuel : Nat) (l : List Char) (a : Char)
    (h : a ∈ stripDataAttrs fuel l) : a ∈ l := by
  induction fuel generalizing l with
  | zero => exact h
  | succ fuel ih =>
    cases l with
    | nil => simp [stripDataAttrs] at h
    | cons c rest =>
      rw [stripDataAttrs] at h
      dsimp only at h
      split at h
      · split at h
        · split at h
          · rename_i rest2 heq1
            split at h
            · rename_i rest3 heq2
              have h3 : a ∈ rest3 := ih _ h
              have h5 : a ∈ ('"' :: rest3 : List Char) := List.mem_cons_of_mem _ h3
              rw [← heq2] at h5
              have h6 := (List.dropWhile_sublist (fun x => decide (x ≠ '"'))).mem h5
              have h7 : a ∈ ('=' :: '"' :: rest2 : List Char) :=
                List.mem_cons_of_mem _ (List.mem_cons_of_mem _ h6)
              rw [← heq1] at h7
              have h8 := (List.dropWhile_sublist isDataNameChar).mem h7
              exact List.mem_of_mem_drop h8
            · rcases List.mem_cons.mp h with h | h
              · exact h ▸ List.mem_cons_self c rest
              · exact List.mem_cons_of_mem c (ih _ h)
          · rcases List.mem_cons.mp h with h | h
            · exact h ▸ List.mem_cons_self c rest
            · exact List.mem_cons_of_mem c (ih _ h)
        · rcases List.mem_cons.mp h with h | h
          · exact h ▸ List.mem_cons_self c rest
          · exact List.mem_cons_of_mem c (ih _ h)
      · rcases List.mem_cons.mp h with h | h
        · exact h ▸ List.mem_cons_self c rest
        · exact List.mem_cons_of_mem c (ih _ h)

/-- Every character of `stripBraceBlobs`'s output is an input character or
one of the two braces. -/
theorem mem_stripBraceBlobs (fuel : Nat) (l : List Char) (a : Char)
    (h : a ∈ stripBraceBlobs fuel l) : a ∈ l ∨ a = '{' ∨ a = '}' := by
  induction fuel generalizing l with
  | zero => exact Or.inl h
  | succ fuel ih =>
    cases l with
    | nil => simp [stripBraceBlobs] at h
    | cons c rest =>
      rw [stripBraceBlobs] at h
      split at h
      · split at h
        · split at h
          · rename_i hc rest2 heq hlen
            rcases List.mem_cons.mp h with h | h
            · exact Or.inr (Or.inl h)
            rcases List.mem_cons.mp h with h | h
            · exact Or.inr (Or.inr h)
            rcases ih _ h with h | h
            · refine Or.inl (List.mem_cons_of_mem c ?_)
              have h5 : a ∈ ('}' :: rest2 : List Char) := List.mem_cons_of_mem _ h
              rw [← heq] at h5
              exact (List.dropWhile_sublist (· ≠ '}')).mem h5
            · exact Or.inr h
          · rcases List.mem_cons.mp h with h | h
            · exact Or.inl (h ▸ List.mem_cons_self c rest)
            rcases ih _ h with h | h
            · exact Or.inl (List.mem_cons_of_mem c h)
            · exact Or.inr h
        · rcases List.mem_cons.mp h with h | h
          · exact Or.inl (h ▸ List.mem_cons_self c rest)
          rcases ih _ h with h | h
          · exact Or.inl (List.mem_cons_of_mem c h)
          · exact Or.inr h
      · rcases List.mem_cons.mp h with h | h
        · exact Or.inl (h ▸ List.mem_cons_self c rest)
        rcases ih _ h with h | h
        · exact Or.inl (List.mem_cons_of_mem c h)
        · exact Or.inr h

/-- A prefix check that succeeds puts every pattern character in the list. -/
theorem mem_of_isPrefixOf {p l : List Char} (h : p.isPrefixOf l = true) :
    ∀ a ∈ p, a ∈ l := by
  induction p generalizing l with
  | nil => intro a ha; simp at ha
  | cons x xs ih =>
    cases l with
    | nil => simp [List.isPrefixOf] at h
    | cons y ys =>
      rw [List.isPrefixOf, Bool.and_eq_true] at h
      intro a ha
      rcases List.mem_cons.mp ha with ha | ha
      · have hxy : x = y := by
          have := h.1
          simpa using this
        exact (ha.trans hxy) ▸ List.mem_cons_self y ys
      · exact List.mem_cons_of_mem y (ih h.2 a ha)

/-- A substring's characters all occur in the containing list. -/
theorem mem_of_hasSubstr {l pat : List Char} (h : hasSubstr l pat = true) :
    ∀ a ∈ pat, a ∈ l := by
  induction l with
  | nil =>
    intro a ha
    rw [hasSubstr, List.isEmpty_iff] at h
    subst h
    simp at ha
  | cons c rest ih =>
    rw [hasSubstr, Bool.or_eq_true] at h
    intro a ha
    rcases h with h | h
    · exact mem_of_isPrefixOf h a ha
    · exact List.mem_cons_of_mem c (ih h a ha)

/-- Length bound of the final slice for a non-negative limit. -/
theorem pySliceTo_length_le (limit : Int) (hlim : 0 ≤ limit)
    (l : List Char) : ((pySliceTo limit l).length : Int) ≤ limit := by
  rw [pySliceTo, if_neg (by omega)]
  have h1 : (l.take limit.toNat).length ≤ limit.toNat :=
    List.length_take_le _ _
  omega

/-- Amended C8, part one: the length bound holds for non-negative limits. -/
theorem c8_len (html : String) (limit : Int) (hlim : 0 ≤ limit) :
    ((extract_limited_html html limit).length : Int) ≤ limit := by
  rw [extract_limited_html]
  split
  · simpa using hlim
  · exact pySliceTo_length_le limit hlim _

/-- The tail of the pipeline (whitespace collapse, data-attribute and brace
blob removal, final slice) introduces only spaces and braces, so a string
holding a character absent from its input and distinct from those cannot
survive as a substring. -/
theorem hasSubstr_tail_false (pp s : List Char) (c : Char) (limit : Int)
    (f1 f2 f3 : Nat) (hcs : c ∈ s) (hcpp : c ∉ pp)
    (hsp : c ≠ ' ') (hob : c ≠ '{') (hcb : c ≠ '}') :
    hasSubstr (pySliceTo limit
      (stripBraceBlobs f3 (stripDataAttrs f2 (collapseWs f1 pp)))) s = false := by
  cases hres : hasSubstr (pySliceTo limit
      (stripBraceBlobs f3 (stripDataAttrs f2 (collapseWs f1 pp)))) s with
  | false => rfl
  | true =>
    exfalso
    have hc := mem_of_hasSubstr hres c hcs
    have h1 : c ∈ stripBraceBlobs f3 (stripDataAttrs f2 (collapseWs f1 pp)) := by
      rw [pySliceTo] at hc
      split at hc
      · exact List.mem_of_mem_take hc
      · exact List.mem_of_mem_take hc
    rcases mem_stripBraceBlobs _ _ _ h1 with h2 | h2 | h2
    · have h3 := mem_stripDataAttrs _ _ _ h2
      rcases mem_collapseWs _ _ _ h3 with h4 | h4
      · exact hcpp h4
      · exact hsp h4
    · exact hob h2
    · exact hcb h2

/-- Amended C8, part two: script text vanishes for bracket-free contexts. -/
theorem c8_script (pre s post : List Char) (c : Char) (limit : Int)
    (hpre : ∀ a ∈ pre, a ≠ '<') (hs : ∀ a ∈ s, a ≠ '<')
    (hpost : ∀ a ∈ post, a ≠ '<')
    (hcs : c ∈ s) (hcpre : c ∉ pre) (hcpost : c ∉ post)
    (hsp : c ≠ ' ') (hob : c ≠ '{') (hcb : c ≠ '}') :
    hasSubstr (extract_limited_html
        ⟨pre ++ "<script>".data ++ s ++ "</script>".data ++ post⟩
        limit).data s = false := by
  have hne : (⟨pre ++ "<script>".data ++ s ++ "</script>".data ++ post⟩ : String) ≠ "" := by
    intro he
    have : pre ++ "<script>".data ++ s ++ "</script>".data ++ post = [] :=
      congrArg String.data he
    simp [show "<script>".data = ['<','s','c','r','i','p','t','>'] from rfl] at this
  rw [extract_limited_html, if_neg hne]
  dsimp only
  rw [stripTagBlocks_script pre s post hpre hs hpost]
  have hpp : ∀ a ∈ pre ++ post, a ≠ '<' := by
    intro a ha
    rcases List.mem_append.mp ha with ha | ha
    · exact hpre a ha
    · exact hpost a ha
  rw [stripTagBlocks_nolt _ _ _ _ hpp, stripDelimited_nolt _ _ _ _ hpp,
    stripTagBlocks_nolt _ _ _ _ hpp]
  exact hasSubstr_tail_false (pre ++ post) s c limit _ _ _ hcs
    (fun hmem => by
      rcases List.mem_append.mp hmem with h5 | h5
      · exact hcpre h5
      · exact hcpost h5)
    hsp hob hcb


/-- C8 (amended): `extract_limited_html` is total by construction; for every
non-negative limit the output length is bounded by the limit; and a script
element's text content is removed whenever the script body and the
surrounding text are free of further tag brackets, witnessed by any
character of the body that occurs nowhere else and is none of the
characters the later passes can introduce (space and the two braces). -/
theorem C8_reduce_bounded_and_script_stripped :
    (∀ (html : String) (limit : Int), 0 ≤ limit →
      ((extract_limited_html html limit).length : Int) ≤ limit) ∧
    (∀ (pre s post : List Char) (c : Char) (limit : Int),
      (∀ a ∈ pre, a ≠ '<') → (∀ a ∈ s, a ≠ '<') → (∀ a ∈ post, a ≠ '<') →
      c ∈ s → c ∉ pre → c ∉ post → c ≠ ' ' → c ≠ '{' → c ≠ '}' →
      hasSubstr (extract_limited_html
        ⟨pre ++ "<script>".data ++ s ++ "</script>".data ++ post⟩
        limit).data s = false) :=
  ⟨c8_len, c8_script⟩

/-- C8 witness: the bound at limit 5, and deletion of the body of a script
element embedded between plain texts. -/
theorem C8_reduce_bounded_and_script_stripped_witness :
    ((extract_limited_html "<p>hello</p>" 5).length : Int) ≤ 5 ∧
    hasSubstr (extract_limited_html
      ⟨"hello ".data ++ "<script>".data ++ "var z=1".data ++
        "</script>".data ++ " bye".data⟩ 8000).data "var z=1".data = false :=
  ⟨C8_reduce_bounded_and_script_stripped.1 "<p>hello</p>" 5 (by decide),
   C8_reduce_bounded_and_script_stripped.2 "hello ".data "var z=1".data
     " bye".data 'z' 8000 (by decide) (by decide) (by decide) (by decide)
     (by decide) (by decide) (by decide) (by decide) (by decide)⟩

/-- C8 counterexample to the literal claim: at the negative limit `-1`
(Python slicing semantics) the output of `extract_limited_html "<p>x</p>"`
has length 7, exceeding the limit; and for an input whose script body text
also occurs outside the script element, the output still contains that
text. -/
theorem C8_limit_and_script_counterexample :
    ¬ (((extract_limited_html "<p>x</p>" (-1)).length : Int) ≤ -1) ∧
    hasSubstr (extract_limited_html "<p>hi</p><script>hi</script>"
      8000).data "hi".data = true := by
  constructor
  · decide
  · decide

end Buildflow
